/-
Verification of the re-scoring scheduling and ranking-store subsystem of the
Task-Wolf-Interview repository.

The JavaScript sources are embedded shallowly:
- JS `Map` objects become insertion-ordered association lists (`List (Nat × α)`);
  `mapGet`, `mapSet`, `mapDelete`, `mapHas`, `mapValues` mirror the Map API
  (set updates an existing key in place, otherwise appends).
- Identifiers produced by `Date.now()` / `randomUUID()` and timestamps from
  `new Date().toISOString()` are modelled as `Nat` values passed explicitly to
  each operation; theorems that need clock monotonicity or id freshness state
  them as hypotheses.
- `Array.prototype.sort`, which is stable in ECMAScript, is embedded as
  `List.insertionSort` (a stable sort) on the comparator's ordering.
- The asynchronous scheduler is embedded as a small-step system: each event is
  the synchronous segment of JS execution between two suspension points (the
  only suspension point is the `await aiScoringService.requestAIScoring(...)`
  call).  A suspended job is a `PendingJob`; resuming it runs the remainder of
  `processRankingReScoring` (save, catch, finally).
- Network I/O inside `callOpenAI` (fetch results per attempt) and the
  `JSON.parse`-based response parsing are abstracted as oracle parameters;
  every other branch of `aiScoringService` is embedded from the source.
-/
import Mathlib

namespace TaskWolf

/-- JS `Map.prototype.get`: first (and, for a real `Map`, only) binding of the
key, or `none`. -/
def mapGet {α : Type} : List (Nat × α) → Nat → Option α
  | [], _ => none
  | p :: rest, k => if p.1 = k then some p.2 else mapGet rest k

/-- JS `Map.prototype.set`: update the binding in place if the key is present
(keeping its insertion position), otherwise append a new binding. -/
def mapSet {α : Type} (l : List (Nat × α)) (k : Nat) (v : α) : List (Nat × α) :=
  if k ∈ l.map (·.1) then l.map (fun p => if p.1 = k then (p.1, v) else p)
  else l ++ [(k, v)]

/-- JS `Map.prototype.delete`: drop every binding of the key (a real `Map` has
at most one). -/
def mapDelete {α : Type} (l : List (Nat × α)) (k : Nat) : List (Nat × α) :=
  l.filter (fun p => decide (p.1 ≠ k))

/-- JS `Map.prototype.has`. -/
def mapHas {α : Type} (l : List (Nat × α)) (k : Nat) : Bool :=
  (mapGet l k).isSome

/-- JS `Map.prototype.values`, in insertion order. -/
def mapValues {α : Type} (l : List (Nat × α)) : List α :=
  l.map (·.2)

/-- An article record as scraped (`title`, `timeText`, `page`, `position`). -/
structure Article where
  title : String
  timeText : String
  page : Nat
  position : Nat
deriving DecidableEq

/-- The structured analysis produced by `parseAIResponse` (shape of the
success/fallback objects built in `aiScoringService.parseAIResponse`). -/
structure Analysis where
  summary : String
  overallScore : Int
  confidenceLevel : Int
  issues : List String
  suggestions : List String
deriving DecidableEq

/-- The result object returned by `AIScoringService.requestAIScoring` (and, as
stored by `RankingStore.saveAIInsight`, the AI insight: `saveAIInsight`
re-stamps `generatedAt`).  Fields absent on a given JS path are `none`/`0`. -/
structure AIResult where
  requestId : Nat
  rankingId : Nat
  success : Bool
  error : Option String
  analysis : Option Analysis
  articlesAnalyzed : Nat
  modelName : String
  generatedAt : Nat
deriving DecidableEq

/-- A ranking record as built by `RankingStore.createRankingRecord`
(src/unnamed/part_004).  `aiInsight` is the property written in place by
`saveAIInsight`; it is absent (`none`) at creation. -/
structure Ranking where
  id : Nat
  generatedAt : Nat
  url : String
  totalArticles : Nat
  pagesNavigated : Nat
  isCorrectlySorted : Bool
  articles : List Article
  createdAt : Nat
  aiInsight : Option AIResult
deriving DecidableEq

/-- Input of `createRankingRecord`; `Option` fields model JS `undefined`
defaulted with `|| 0`, `|| false`, `|| []`. -/
structure RankingData where
  url : String
  totalArticles : Option Nat
  pagesNavigated : Option Nat
  isCorrectlySorted : Option Bool
  articles : Option (List Article)
deriving DecidableEq

/-- A feedback record as built by `RankingStore.addFeedback`. -/
structure Feedback where
  id : Nat
  rankingId : Nat
  articlePosition : Nat
  vote : String
  notes : String
  submittedAt : Nat
deriving DecidableEq

/-- Input of `addFeedback`; `notes` defaults with `|| ''`. -/
structure FeedbackData where
  rankingId : Nat
  articlePosition : Nat
  vote : String
  notes : Option String
deriving DecidableEq

/-- State of the class-based `RankingStore` singleton (src/unnamed/part_004):
`rankings` and `feedback` are JS Maps, `currentRankingId` starts `null`. -/
structure RankingStore where
  rankings : List (Nat × Ranking)
  feedback : List (Nat × List Feedback)
  currentRankingId : Option Nat
deriving DecidableEq

/-- The freshly constructed store (`new RankingStore()`). -/
def emptyStore : RankingStore :=
  { rankings := [], feedback := [], currentRankingId := none }

/-- `RankingStore.createRankingRecord(data)`: builds the record (both
`generatedAt` and `createdAt` come from `new Date()` at call time, modelled by
the single `now`), inserts it, and repoints `currentRankingId`.  The fresh id
from `generateId()` is the explicit `id` argument. -/
def createRankingRecord (s : RankingStore) (data : RankingData) (id now : Nat) :
    Ranking × RankingStore :=
  let ranking : Ranking :=
    { id := id
      generatedAt := now
      url := data.url
      totalArticles := data.totalArticles.getD 0
      pagesNavigated := data.pagesNavigated.getD 0
      isCorrectlySorted := data.isCorrectlySorted.getD false
      articles := data.articles.getD []
      createdAt := now
      aiInsight := none }
  (ranking,
    { s with
        rankings := mapSet s.rankings id ranking
        currentRankingId := some id })

/-- `RankingStore.getRankingById(id)`. -/
def getRankingById (s : RankingStore) (id : Nat) : Option Ranking :=
  mapGet s.rankings id

/-- `RankingStore.getCurrentRanking()`. -/
def getCurrentRanking (s : RankingStore) : Option Ranking :=
  match s.currentRankingId with
  | none => none
  | some id => getRankingById s id

/-- The in-place mutation `ranking.aiInsight = insight` of `saveAIInsight`. -/
def withInsight (insight : AIResult) (r : Ranking) : Ranking :=
  { r with aiInsight := some insight }

/-- `RankingStore.saveAIInsight(rankingId, aiResult)`: if the ranking exists,
overwrite its `aiInsight` in place with `{...aiResult, generatedAt: now}`.
The JS method body has no `return` statement, so its call value is always
`undefined`, modelled as the constantly-`none` first component. -/
def saveAIInsight (s : RankingStore) (rankingId : Nat) (aiResult : AIResult)
    (now : Nat) : Option AIResult × RankingStore :=
  match getRankingById s rankingId with
  | some _ =>
      (none,
        { s with
            rankings := s.rankings.map (fun p =>
              if p.1 = rankingId then
                (p.1, withInsight { aiResult with generatedAt := now } p.2)
              else p) })
  | none => (none, s)

/-- `RankingStore.getAIInsight(rankingId)`: `ranking?.aiInsight || null`. -/
def getAIInsight (s : RankingStore) (rankingId : Nat) : Option AIResult :=
  match getRankingById s rankingId with
  | some ranking => ranking.aiInsight
  | none => none

/-- `RankingStore.addFeedback(feedbackData)`: build the record and push it onto
the per-ranking list (creating the Map entry if needed). -/
def addFeedback (s : RankingStore) (fd : FeedbackData) (id now : Nat) :
    Feedback × RankingStore :=
  let fb : Feedback :=
    { id := id
      rankingId := fd.rankingId
      articlePosition := fd.articlePosition
      vote := fd.vote
      notes := fd.notes.getD ""
      submittedAt := now }
  (fb,
    { s with
        feedback := mapSet s.feedback fd.rankingId
          ((mapGet s.feedback fd.rankingId).getD [] ++ [fb]) })

/-- Descending-`submittedAt` comparator of `listFeedback`
(`(a, b) => new Date(b.submittedAt) - new Date(a.submittedAt)`). -/
def feedbackDesc (a b : Feedback) : Prop :=
  b.submittedAt ≤ a.submittedAt

instance : DecidableRel feedbackDesc := fun a b =>
  inferInstanceAs (Decidable (b.submittedAt ≤ a.submittedAt))

instance : IsTotal Feedback feedbackDesc :=
  ⟨fun a b => le_total b.submittedAt a.submittedAt⟩

instance : IsTrans Feedback feedbackDesc :=
  ⟨fun _ _ _ hab hbc => le_trans hbc hab⟩

/-- `RankingStore.listFeedback(filters)`: with a `rankingId` filter, return the
stored per-ranking array as is; otherwise flatten all entries and sort them
newest first (JS `sort` is stable). -/
def listFeedback (s : RankingStore) (filterRankingId : Option Nat) : List Feedback :=
  match filterRankingId with
  | some rid => (mapGet s.feedback rid).getD []
  | none => List.insertionSort feedbackDesc ((s.feedback.map (·.2)).flatten)

/-- Descending-`createdAt` comparator of `getAllRankings`. -/
def rankingDesc (a b : Ranking) : Prop :=
  b.createdAt ≤ a.createdAt

instance : DecidableRel rankingDesc := fun a b =>
  inferInstanceAs (Decidable (b.createdAt ≤ a.createdAt))

/-- `RankingStore.getAllRankings()`: all records, sorted newest first. -/
def getAllRankings (s : RankingStore) : List Ranking :=
  List.insertionSort rankingDesc (mapValues s.rankings)

/-- One iteration of the `cleanupOldRankings` loop body for a map entry:
delete the ranking and its feedback and null the current pointer when the
record is older than the cutoff. -/
def cleanupStep (cutoff : Nat) (s : RankingStore) (entry : Nat × Ranking) :
    RankingStore :=
  if entry.2.createdAt < cutoff then
    { rankings := mapDelete s.rankings entry.1
      feedback := mapDelete s.feedback entry.1
      currentRankingId :=
        if s.currentRankingId = some entry.1 then none else s.currentRankingId }
  else s

/-- `RankingStore.cleanupOldRankings(maxAge)`: iterate over the entries (the
iteration sequence is the map's entry list at call time) deleting the stale
ones; `cutoff = Date.now() - maxAge` truncates at zero like the JS date math
compares (`createdAt < negative` is false, as is `createdAt < 0`). -/
def cleanupOldRankings (s : RankingStore) (now maxAge : Nat) : RankingStore :=
  s.rankings.foldl (cleanupStep (now - maxAge)) s

/-- A ranking record of the repository's second, functional ranking store (the
module in src/__tests__/articleScoreRoute.test.js's companion source blob that
exports `createRankingRecord`/`listRankings`): unlike part_004's records it has
no `createdAt` and no in-place `aiInsight`. -/
structure FnRanking where
  id : Nat
  url : String
  totalArticles : Nat
  pagesNavigated : Nat
  isCorrectlySorted : Bool
  articles : List Article
  generatedAt : Nat
deriving DecidableEq

/-- The record stored by the functional store's `saveAIInsight`:
`{...insight, rankingId, recordedAt}` (the explicit `rankingId` and
`recordedAt` keys override any spread ones). -/
structure FnInsight where
  insight : AIResult
  rankingId : Nat
  recordedAt : Nat
deriving DecidableEq

/-- Module-level state of the functional ranking store. -/
structure FnStore where
  rankingHistory : List (Nat × FnRanking)
  rankingOrder : List Nat
  feedbackEntries : List Feedback
  aiInsights : List (Nat × FnInsight)
  currentRankingId : Option Nat
deriving DecidableEq

/-- `MAX_RANKINGS_STORED` of the functional store. -/
def MAX_RANKINGS_STORED : Nat := 20

/-- The functional store's initial module state. -/
def fnEmptyStore : FnStore :=
  { rankingHistory := [], rankingOrder := [], feedbackEntries := [],
    aiInsights := [], currentRankingId := none }

/-- `pruneHistoryIfNeeded()`: while more than `MAX_RANKINGS_STORED` ids are
retained, shift the oldest and delete its history and insight entries (the
`if (oldestId)` truthiness guard always passes: `randomUUID()` strings are
never falsy). -/
def pruneHistoryIfNeeded (s : FnStore) : FnStore :=
  if MAX_RANKINGS_STORED < s.rankingOrder.length then
    match h : s.rankingOrder with
    | [] => s
    | oldestId :: rest =>
        pruneHistoryIfNeeded
          { s with
              rankingOrder := rest
              rankingHistory := mapDelete s.rankingHistory oldestId
              aiInsights := mapDelete s.aiInsights oldestId }
  else s
termination_by s.rankingOrder.length
decreasing_by simp [h]

/-- Input of the functional store's `createRankingRecord` (destructured with no
defaults), together with the id and timestamp drawn at creation. -/
structure FnCreateItem where
  id : Nat
  now : Nat
  url : String
  totalArticles : Nat
  pagesNavigated : Nat
  isCorrectlySorted : Bool
  articles : List Article
deriving DecidableEq

/-- The record `createRankingRecord` builds from a creation item. -/
def fnRecordOf (it : FnCreateItem) : FnRanking :=
  { id := it.id, url := it.url, totalArticles := it.totalArticles,
    pagesNavigated := it.pagesNavigated, isCorrectlySorted := it.isCorrectlySorted,
    articles := it.articles, generatedAt := it.now }

/-- The functional store's `createRankingRecord`: store the record, push the
id, repoint `currentRankingId`, then prune. -/
def fnCreateRankingRecord (s : FnStore) (it : FnCreateItem) : FnRanking × FnStore :=
  let record := fnRecordOf it
  let s :=
    { s with
        rankingHistory := mapSet s.rankingHistory it.id record
        rankingOrder := s.rankingOrder ++ [it.id]
        currentRankingId := some it.id }
  (record, pruneHistoryIfNeeded s)

/-- The functional store's `getCurrentRanking`. -/
def fnGetCurrentRanking (s : FnStore) : Option FnRanking :=
  match s.currentRankingId with
  | some id => mapGet s.rankingHistory id
  | none => none

/-- The functional store's `listRankings`:
`rankingOrder.slice().reverse().map(get).filter(Boolean)`. -/
def listRankings (s : FnStore) : List FnRanking :=
  s.rankingOrder.reverse.filterMap (mapGet s.rankingHistory)

/-- The functional store's `addFeedback`. -/
def fnAddFeedback (s : FnStore) (fd : FeedbackData) (id now : Nat) :
    Feedback × FnStore :=
  let fb : Feedback :=
    { id := id, rankingId := fd.rankingId, articlePosition := fd.articlePosition,
      vote := fd.vote, notes := fd.notes.getD "", submittedAt := now }
  (fb, { s with feedbackEntries := s.feedbackEntries ++ [fb] })

/-- The functional store's `listFeedback`: copy, filter by ranking when asked,
always sort newest first. -/
def fnListFeedback (s : FnStore) (filterRankingId : Option Nat) : List Feedback :=
  let entries :=
    match filterRankingId with
    | some rid => s.feedbackEntries.filter (fun e => decide (e.rankingId = rid))
    | none => s.feedbackEntries
  List.insertionSort feedbackDesc entries

/-- The functional store's `saveAIInsight`: `null` when the ranking id is no
longer in history, otherwise store and return the stamped record. -/
def fnSaveAIInsight (s : FnStore) (rankingId : Nat) (insight : AIResult)
    (now : Nat) : Option FnInsight × FnStore :=
  if mapHas s.rankingHistory rankingId then
    let record : FnInsight := { insight := insight, rankingId := rankingId, recordedAt := now }
    (some record, { s with aiInsights := mapSet s.aiInsights rankingId record })
  else (none, s)

/-- The functional store's `getAIInsight`. -/
def fnGetAIInsight (s : FnStore) (rankingId : Nat) : Option FnInsight :=
  mapGet s.aiInsights rankingId

/-- `this.model` of `AIScoringService`. -/
def serviceModel : String := "gpt-3.5-turbo"

/-- `this.maxRetries` of `AIScoringService`. -/
def maxRetries : Nat := 3

/-- The retry loop of `callOpenAI` (`for attempt = 1..maxRetries`): the fetch
outcome of attempt `attempt` is the oracle value `attemptResults attempt` — an
`Except` whose error models a thrown fetch/`!response.ok` error and whose value
is `data.choices[0]?.message?.content || ''`.  The error of the final attempt
is rethrown. -/
def callOpenAILoop (attemptResults : Nat → Except String String) :
    Nat → Nat → Except String String
  | _, 0 => Except.error "OpenAI API error"
  | attempt, remaining + 1 =>
      match attemptResults attempt with
      | Except.ok content => Except.ok content
      | Except.error e =>
          if remaining = 0 then Except.error e
          else callOpenAILoop attemptResults (attempt + 1) remaining

/-- `AIScoringService.callOpenAI(prompt, requestId)`: throws when no API key is
configured, otherwise runs the retry loop.  The prompt is carried for fidelity
but the network is abstracted by `attemptResults`. -/
def callOpenAI (apiKey : Option String) (prompt : String)
    (attemptResults : Nat → Except String String) : Except String String :=
  match apiKey with
  | none => Except.error "OpenAI API key not configured"
  | some _ =>
      let _ := prompt
      callOpenAILoop attemptResults 1 maxRetries

/-- Outcome of the `response.match(...)` + `JSON.parse` step inside
`parseAIResponse`, abstracted as an oracle: the regex may find no JSON block,
or `JSON.parse` may succeed with an analysis object, or throw. -/
inductive JsonOutcome where
  | noMatch
  | parsed (a : Analysis)
  | parseFailure (msg : String)
deriving DecidableEq

/-- `AIScoringService.extractScore(text)`: the regex capture is the oracle
`scoreOf`; a captured score is clamped into `[1, 10]`, otherwise 5. -/
def extractScore (scoreOf : String → Option Int) (text : String) : Int :=
  match scoreOf text with
  | some n => max 1 (min 10 n)
  | none => 5

/-- `AIScoringService.parseAIResponse(response)`: parsed JSON wins; no JSON
block falls back to a text summary; a `JSON.parse` throw is caught and yields
the fixed fallback object. -/
def parseAIResponse (jsonOf : String → JsonOutcome) (scoreOf : String → Option Int)
    (response : String) : Analysis :=
  match jsonOf response with
  | JsonOutcome.parsed a => a
  | JsonOutcome.noMatch =>
      { summary := response, overallScore := extractScore scoreOf response,
        confidenceLevel := 5, issues := [], suggestions := [] }
  | JsonOutcome.parseFailure _ =>
      { summary := response, overallScore := 5, confidenceLevel := 3,
        issues := ["Failed to parse AI response"],
        suggestions := ["Manual review recommended"] }

/-- The `articlesForAnalysis` mapping of `requestAIScoring`:
`articles.slice(0, 20)` re-indexed with 1-based positions. -/
def articlesForAnalysis (articles : List Article) : List Article :=
  (articles.take 20).enum.map (fun p =>
    { position := p.1 + 1, title := p.2.title, timeText := p.2.timeText,
      page := p.2.page })

/-- `AIScoringService.createAnalysisPrompt(articles, url)`. -/
def createAnalysisPrompt (articles : List Article) (url : String) : String :=
  let articlesText := String.intercalate "\n"
    (articles.map (fun a => toString a.position ++ ". " ++ a.title ++ " (" ++ a.timeText ++ ")"))
  "Analyze the following articles from " ++ url ++
    " and provide insights about their ranking quality:\n\nArticles:\n" ++
    articlesText ++
    "\n\nPlease provide:\n1. Overall assessment of ranking quality (1-10 scale)\n2. Any obvious ranking issues\n3. Suggestions for improvement\n4. Confidence level in the analysis (1-10 scale)\n\nRespond in JSON format with keys: overallScore, issues, suggestions, confidenceLevel, summary."

/-- The `try` block of `requestAIScoring`: an `Except.error` is an exception
propagating to the surrounding `catch`.  Both `new Date()` stamps of the body
are modelled by `now`. -/
def requestAIScoringBody (ranking : Ranking) (requestId now : Nat)
    (apiKey : Option String) (attemptResults : Nat → Except String String)
    (jsonOf : String → JsonOutcome) (scoreOf : String → Option Int) :
    Except String AIResult :=
  if ranking.articles.isEmpty then
    Except.ok
      { requestId := requestId, rankingId := ranking.id, success := false,
        error := some "No articles available for analysis", analysis := none,
        articlesAnalyzed := 0, modelName := serviceModel, generatedAt := now }
  else
    let prepared := articlesForAnalysis ranking.articles
    let prompt := createAnalysisPrompt prepared ranking.url
    match callOpenAI apiKey prompt attemptResults with
    | Except.error e => Except.error e
    | Except.ok aiResponse =>
        Except.ok
          { requestId := requestId, rankingId := ranking.id, success := true,
            error := none,
            analysis := some (parseAIResponse jsonOf scoreOf aiResponse),
            articlesAnalyzed := prepared.length, modelName := serviceModel,
            generatedAt := now }

/-- `AIScoringService.requestAIScoring(ranking)`: the whole body is wrapped in
`try/catch`; any thrown error is converted into a resolved result with
`success: false`, so the returned promise never rejects. -/
def requestAIScoring (ranking : Ranking) (requestId now : Nat)
    (apiKey : Option String) (attemptResults : Nat → Except String String)
    (jsonOf : String → JsonOutcome) (scoreOf : String → Option Int) : AIResult :=
  match requestAIScoringBody ranking requestId now apiKey attemptResults jsonOf scoreOf with
  | Except.ok result => result
  | Except.error e =>
      { requestId := requestId, rankingId := ranking.id, success := false,
        error := some e, analysis := none, articlesAnalyzed := 0,
        modelName := serviceModel, generatedAt := now }

/-- A job id of the scheduler: `jobId = cycleId + '-' + ranking.id`. -/
abbrev JobId := Nat × Nat

/-- A scheduler job suspended at the `await aiScoringService.requestAIScoring`
call of `processRankingReScoring`. -/
structure PendingJob where
  cycleId : Nat
  rankingId : Nat
deriving DecidableEq

/-- State of the `ReScoringScheduler` instance, extended with the runtime's set
of armed interval timers (`timers`) and the suspended jobs (`pending`). -/
structure SchedulerState where
  isRunning : Bool
  intervalId : Option Nat
  intervalMs : Nat
  maxConcurrentJobs : Nat
  activeJobs : List JobId
  pending : List PendingJob
  timers : List Nat
deriving DecidableEq

/-- JS `Set.prototype.add` (insertion ordered, no duplicates). -/
def setAdd (l : List JobId) (x : JobId) : List JobId :=
  if x ∈ l then l else l ++ [x]

/-- JS `Set.prototype.delete`. -/
def setDelete (l : List JobId) (x : JobId) : List JobId :=
  l.filter (fun y => decide (y ≠ x))

/-- The 2-hour freshness threshold (`rescoreThreshold` in
`getRankingsForReScoring`, `threshold` in `hasRecentInsight`). -/
def rescoreThreshold : Nat := 2 * 60 * 60 * 1000

/-- `ReScoringScheduler.hasRecentInsight(insight)`: the insight exists and its
age (`now - generatedAt`, JS date subtraction, hence `Int`) is strictly below
the threshold. -/
def hasRecentInsight (insight : Option AIResult) (now : Nat) : Bool :=
  match insight with
  | none => false
  | some i => decide ((now : Int) - (i.generatedAt : Int) < (rescoreThreshold : Int))

/-- `ReScoringScheduler.getRankingsForReScoring()`: among all stored rankings,
keep those with a non-empty article list whose insight is missing or strictly
older than the threshold. -/
def getRankingsForReScoring (store : RankingStore) (now : Nat) : List Ranking :=
  (getAllRankings store).filter (fun ranking =>
    if ranking.articles.isEmpty then false
    else
      match getAIInsight store ranking.id with
      | some existingInsight =>
          decide ((rescoreThreshold : Int) < (now : Int) - (existingInsight.generatedAt : Int))
      | none => true)

/-- The synchronous opening segment of `processRankingReScoring(ranking,
cycleId)`, up to (and excluding) the `await` of the provider call: register the
job id, then either deregister it at once (service unavailable, or the insight
became recent — both early returns run the `finally` synchronously) or stay
registered and suspend at the provider call. -/
def launchJob (avail : Bool) (now : Nat) (store : RankingStore) (cycleId : Nat)
    (sched : SchedulerState) (ranking : Ranking) : SchedulerState :=
  let jobId : JobId := (cycleId, ranking.id)
  let sched := { sched with activeJobs := setAdd sched.activeJobs jobId }
  if avail = false then
    { sched with activeJobs := setDelete sched.activeJobs jobId }
  else if hasRecentInsight (getAIInsight store ranking.id) now then
    { sched with activeJobs := setDelete sched.activeJobs jobId }
  else
    { sched with pending := sched.pending ++ [⟨cycleId, ranking.id⟩] }

/-- Combined state of the store singleton and the scheduler singleton. -/
structure SysState where
  store : RankingStore
  sched : SchedulerState
deriving DecidableEq

/-- The synchronous turn of `ReScoringScheduler.runReScoringCycle()` (also the
body of `forceCycle()` and of each timer tick): skip when the active-job count
has reached `maxConcurrentJobs`; otherwise select candidates, slice off the
first `maxConcurrentJobs` of them, and run each job's synchronous opening
segment.  `avail` is `aiScoringService.isAvailable()` during the turn. -/
def runReScoringCycle (sys : SysState) (cycleId now : Nat) (avail : Bool) : SysState :=
  if sys.sched.maxConcurrentJobs ≤ sys.sched.activeJobs.length then sys
  else
    let rankingsToRescore := getRankingsForReScoring sys.store now
    if rankingsToRescore.isEmpty then sys
    else
      let launched := rankingsToRescore.take sys.sched.maxConcurrentJobs
      { sys with
          sched := launched.foldl (launchJob avail now sys.store cycleId) sys.sched }

/-- Remove the first pending job with the given id (the continuation that is
being resumed). -/
def removePendingJob : List PendingJob → Nat → Nat → List PendingJob
  | [], _, _ => []
  | p :: rest, cycleId, rankingId =>
      if p.cycleId = cycleId ∧ p.rankingId = rankingId then rest
      else p :: removePendingJob rest cycleId rankingId

/-- Resumption of a suspended job whose provider call resolved with
`aiResult`: the continuation of `processRankingReScoring` saves the result via
`rankingStore.saveAIInsight` and the `finally` clause deregisters the job id.
A resume event for a job that is not pending is a no-op. -/
def resumeJob (sys : SysState) (cycleId rankingId : Nat) (aiResult : AIResult)
    (now : Nat) : SysState :=
  if (⟨cycleId, rankingId⟩ : PendingJob) ∈ sys.sched.pending then
    { store := (saveAIInsight sys.store rankingId aiResult now).2
      sched :=
        { sys.sched with
            activeJobs := setDelete sys.sched.activeJobs (cycleId, rankingId)
            pending := removePendingJob sys.sched.pending cycleId rankingId } }
  else sys

/-- Resumption of a suspended job whose awaited promise rejected: the `catch`
clause logs and the `finally` clause deregisters the job id; nothing is saved.
(`requestAIScoring` itself never rejects, but the `catch` path is in the
code.) -/
def resumeJobFailure (sys : SysState) (cycleId rankingId : Nat) : SysState :=
  if (⟨cycleId, rankingId⟩ : PendingJob) ∈ sys.sched.pending then
    { sys with
        sched :=
          { sys.sched with
              activeJobs := setDelete sys.sched.activeJobs (cycleId, rankingId)
              pending := removePendingJob sys.sched.pending cycleId rankingId } }
  else sys

/-- `ReScoringScheduler.start(intervalMs)`: log-and-return when already
running; otherwise record the interval, transition to running, fire an
immediate cycle (un-awaited: its synchronous turn runs now), then arm the
recurring timer (`timerId` is the fresh `setInterval` handle). -/
def schedulerStart (sys : SysState) (intervalMs timerId cycleId now : Nat)
    (avail : Bool) : SysState :=
  if sys.sched.isRunning then sys
  else
    let sys :=
      { sys with sched := { sys.sched with intervalMs := intervalMs, isRunning := true } }
    let sys := runReScoringCycle sys cycleId now avail
    { sys with
        sched :=
          { sys.sched with
              intervalId := some timerId
              timers := sys.sched.timers ++ [timerId] } }

/-- `ReScoringScheduler.stop()`: log-and-return when not running; otherwise
clear the running flag and disarm the timer. -/
def schedulerStop (sys : SysState) : SysState :=
  if sys.sched.isRunning then
    let sched := { sys.sched with isRunning := false }
    match sched.intervalId with
    | some t =>
        { sys with
            sched :=
              { sched with
                  intervalId := none
                  timers := sched.timers.filter (fun x => decide (x ≠ t)) } }
    | none => { sys with sched := sched }
  else sys

/-- One atomic synchronous segment of the combined system's execution: a
snapshot creation from the scrape path, an age-based cleanup, a scheduler cycle
(timer tick or `forceCycle()`), a suspended job resuming (with the provider's
resolved result, or with a rejection), or a `start`/`stop` call. -/
inductive Event where
  | create (data : RankingData) (id now : Nat)
  | cleanup (now maxAge : Nat)
  | cycle (cycleId now : Nat) (avail : Bool)
  | resume (cycleId rankingId : Nat) (aiResult : AIResult) (now : Nat)
  | resumeErr (cycleId rankingId : Nat)
  | start (intervalMs timerId cycleId now : Nat) (avail : Bool)
  | stop

/-- Interpretation of one event. -/
def stepEvent (sys : SysState) : Event → SysState
  | Event.create data id now => { sys with store := (createRankingRecord sys.store data id now).2 }
  | Event.cleanup now maxAge => { sys with store := cleanupOldRankings sys.store now maxAge }
  | Event.cycle cycleId now avail => runReScoringCycle sys cycleId now avail
  | Event.resume cycleId rankingId aiResult now => resumeJob sys cycleId rankingId aiResult now
  | Event.resumeErr cycleId rankingId => resumeJobFailure sys cycleId rankingId
  | Event.start intervalMs timerId cycleId now avail =>
      schedulerStart sys intervalMs timerId cycleId now avail
  | Event.stop => schedulerStop sys

/-- Execution of an event sequence. -/
def runEvents (sys : SysState) (events : List Event) : SysState :=
  events.foldl stepEvent sys

/-- The scheduler's constructor state, with `maxConcurrentJobs := m` (the
source constructor fixes `m = 2`; `updateConfig` can raise it). -/
def initialSchedulerWith (m : Nat) : SchedulerState :=
  { isRunning := false, intervalId := none, intervalMs := 30 * 60 * 1000,
    maxConcurrentJobs := m, activeJobs := [], pending := [], timers := [] }

/-- Combined initial state with `maxConcurrentJobs := m`. -/
def initialStateWith (m : Nat) : SysState :=
  { store := emptyStore, sched := initialSchedulerWith m }

/-- Combined initial state of the singletons as constructed by the source
(`maxConcurrentJobs = 2`). -/
def initialState : SysState := initialStateWith 2

/-- A store-level operation: a snapshot creation from the scrape path or an
age-based cleanup — the only two mutations of the history/current-pointer pair
in part_004. -/
inductive StoreOp where
  | create (data : RankingData) (id now : Nat)
  | cleanup (now maxAge : Nat)

/-- Interpretation of a store operation. -/
def applyOp (s : RankingStore) : StoreOp → RankingStore
  | StoreOp.create data id now => (createRankingRecord s data id now).2
  | StoreOp.cleanup now maxAge => cleanupOldRankings s now maxAge

/-- Execution of a sequence of store operations. -/
def applyOps (s : RankingStore) (ops : List StoreOp) : RankingStore :=
  ops.foldl applyOp s

/-- Ids drawn by the creations of an operation sequence. -/
def opCreateIds : List StoreOp → List Nat
  | [] => []
  | StoreOp.create _ id _ :: rest => id :: opCreateIds rest
  | StoreOp.cleanup _ _ :: rest => opCreateIds rest

/-- The `Date.now()` reading of an operation. -/
def opTime : StoreOp → Nat
  | StoreOp.create _ _ now => now
  | StoreOp.cleanup now _ => now

/-- Well-formed operation sequences: `generateId`/`randomUUID` never repeat an
id and `Date.now()` is non-decreasing. -/
def WfOps (ops : List StoreOp) : Prop :=
  (opCreateIds ops).Nodup ∧ List.Chain' (· ≤ ·) (ops.map opTime)

instance decChainLe : (l : List Nat) → Decidable (List.Chain' (· ≤ ·) l)
  | [] => isTrue List.chain'_nil
  | [_] => isTrue (List.chain'_singleton _)
  | a :: b :: rest =>
      have : Decidable (List.Chain' (· ≤ ·) (b :: rest)) := decChainLe (b :: rest)
      decidable_of_iff (a ≤ b ∧ List.Chain' (· ≤ ·) (b :: rest)) List.chain'_cons.symm

instance (ops : List StoreOp) : Decidable (WfOps ops) :=
  inferInstanceAs (Decidable (_ ∧ _))

/-- Inductive invariant of the part_004 store under well-formed operation
sequences: distinct keys, creation times non-decreasing in insertion order and
bounded by the clock, and the current pointer at the last inserted key. -/
structure StoreInv (s : RankingStore) (tmax : Nat) : Prop where
  keysNodup : (s.rankings.map (·.1)).Nodup
  timesMono : List.Chain' (· ≤ ·) (s.rankings.map (fun p => p.2.createdAt))
  timesLe : ∀ p ∈ s.rankings, p.2.createdAt ≤ tmax
  currentEq : s.currentRankingId = (s.rankings.map (·.1)).getLast?

/-- Keys whose entries the `cleanupOldRankings` iteration over `l` deletes. -/
def delIds (cutoff : Nat) (l : List (Nat × Ranking)) : List Nat :=
  (l.filter (fun e => decide (e.2.createdAt < cutoff))).map (·.1)

/-- Repeated creation in the functional store. -/
def fnCreateAll (s : FnStore) (items : List FnCreateItem) : FnStore :=
  items.foldl (fun st it => (fnCreateRankingRecord st it).2) s

/-- The suffix of a creation sequence that the bounded history retains. -/
def fnKept (items : List FnCreateItem) : List FnCreateItem :=
  items.drop (items.length - MAX_RANKINGS_STORED)

/-- Inductive invariant of the functional store under a creation sequence:
history and order hold exactly the retained suffix, in creation order. -/
structure FnInv (items : List FnCreateItem) (s : FnStore) : Prop where
  historyEq : s.rankingHistory = (fnKept items).map (fun it => (it.id, fnRecordOf it))
  orderEq : s.rankingOrder = (fnKept items).map (·.id)
  insightsNil : s.aiInsights = []

/-- Repeated `addFeedback` calls (entry data with its drawn id and
timestamp). -/
def addAll (s : RankingStore) (fds : List (FeedbackData × Nat × Nat)) : RankingStore :=
  fds.foldl (fun st x => (addFeedback st x.1 x.2.1 x.2.2).2) s

/-- The record `addFeedback` builds from its input and drawn id/timestamp. -/
def feedbackEntryOf (x : FeedbackData × Nat × Nat) : Feedback :=
  { id := x.2.1, rankingId := x.1.rankingId, articlePosition := x.1.articlePosition,
    vote := x.1.vote, notes := x.1.notes.getD "", submittedAt := x.2.2 }

/-- The job id a pending job is registered under. -/
def jobIdOf (p : PendingJob) : JobId :=
  (p.cycleId, p.rankingId)

/-- Every active job id belongs to a still-pending job. -/
def SchedReg (sched : SchedulerState) : Prop :=
  ∀ j ∈ sched.activeJobs, ∃ p ∈ sched.pending, jobIdOf p = j

/-- Every active job id belongs to a still-pending job (so once every job of a
cycle has settled, none of that cycle's ids can remain active). -/
def RegInv (sys : SysState) : Prop :=
  SchedReg sys.sched

/- Concrete fixtures for witnesses and counterexamples. -/

/-- A one-article fixture. -/
def sampleArticle : Article :=
  { title := "a", timeText := "2 hours ago", page := 1, position := 1 }

/-- Creation data with one article. -/
def sampleData : RankingData :=
  { url := "https://news.ycombinator.com", totalArticles := some 1,
    pagesNavigated := some 1, isCorrectlySorted := some true,
    articles := some [sampleArticle] }

/-- A provider-failure result: the API key is configured but every fetch
attempt throws, so `requestAIScoring` resolves with `success: false`. -/
def failedResult : AIResult :=
  requestAIScoring ((createRankingRecord emptyStore sampleData 1 0).1) 777 20
    (some "sk-test") (fun _ => Except.error "OpenAI API error: 500 Internal Server Error")
    (fun _ => JsonOutcome.noMatch) (fun _ => none)

/-- part_004 store after creating snapshots A, B, C (ids 1, 2, 3). -/
def threeCreates : RankingStore :=
  (createRankingRecord
    (createRankingRecord
      (createRankingRecord emptyStore sampleData 1 1).2 sampleData 2 2).2
    sampleData 3 3).2

/-- part_004 store holding one snapshot (id 1). -/
def oneRankingStore : RankingStore :=
  (createRankingRecord emptyStore sampleData 1 1).2

/-- Interleaving that overfills the active-job set: one job of cycle 100
suspends, two snapshots arrive, and cycle 200 starts while only one slot is
taken, launching two more jobs. -/
def overflowEvents : List Event :=
  [Event.create sampleData 1 0, Event.cycle 100 10 true,
   Event.create sampleData 2 20, Event.create sampleData 3 30,
   Event.cycle 200 40 true]

/-- State reached by `overflowEvents`. -/
def sysOverflow : SysState := runEvents initialState overflowEvents

/-- Interleaving in which the single job's provider call fails: create, cycle,
resume with `failedResult` at time 20. -/
def failureEvents : List Event :=
  [Event.create sampleData 1 0, Event.cycle 100 10 true,
   Event.resume 100 1 failedResult 20]

/-- State reached by `failureEvents`. -/
def sysFailure : SysState := runEvents initialState failureEvents

/-- State with one suspended job of cycle 100 on ranking 1. -/
def sysPendingOne : SysState :=
  runEvents initialState [Event.create sampleData 1 0, Event.cycle 100 10 true]

/-- The ranking record suspended on in `sysPendingOne`. -/
def pendingRanking : Ranking :=
  (createRankingRecord emptyStore sampleData 1 0).1

/-- Two feedback submissions for ranking 7 at times 1 then 2. -/
def feedbackStore : RankingStore :=
  (addFeedback
    (addFeedback emptyStore
      { rankingId := 7, articlePosition := 1, vote := "promote", notes := none } 10 1).2
    { rankingId := 7, articlePosition := 1, vote := "demote", notes := none } 11 2).2

/-- Twenty-one distinct creation items for the functional store. -/
def fnItems : List FnCreateItem :=
  (List.range 21).map (fun i =>
    { id := i + 1, now := i, url := "u", totalArticles := 1, pagesNavigated := 1,
      isCorrectlySorted := true, articles := [sampleArticle] })

/-- Create twice then clean up with a cutoff that evicts only the older
snapshot. -/
def sampleOps : List StoreOp :=
  [StoreOp.create sampleData 1 1, StoreOp.create sampleData 2 4,
   StoreOp.cleanup 10 8]

/- Association-list (JS Map) lemmas. -/

theorem mapGet_eq_none_iff {α : Type} (l : List (Nat × α)) (k : Nat) :
    mapGet l k = none ↔ k ∉ l.map (·.1) := by
  induction l with
  | nil => simp [mapGet]
  | cons p rest ih =>
      by_cases h : p.1 = k
      · simp [mapGet, h]
      · simp [mapGet, h, ih, Ne.symm h]

theorem mapGet_of_mem_nodup {α : Type} {l : List (Nat × α)} {k : Nat} {v : α}
    (hnd : (l.map (·.1)).Nodup) (hmem : (k, v) ∈ l) : mapGet l k = some v := by
  induction l with
  | nil => cases hmem
  | cons p rest ih =>
      simp only [List.map_cons, List.nodup_cons] at hnd
      rcases List.mem_cons.mp hmem with h | h
      · subst h; simp [mapGet]
      · have hk : p.1 ≠ k := by
          intro he
          exact hnd.1 (he ▸ List.mem_map.mpr ⟨(k, v), h, rfl⟩)
        simpa [mapGet, hk] using ih hnd.2 h

theorem mapGet_mem {α : Type} {l : List (Nat × α)} {k : Nat} {v : α}
    (h : mapGet l k = some v) : (k, v) ∈ l := by
  induction l with
  | nil => simp [mapGet] at h
  | cons p rest ih =>
      by_cases hp : p.1 = k
      · simp only [mapGet, if_pos hp] at h
        cases h
        have hpv : (k, p.2) = p := by cases p; simp_all
        rw [hpv]
        exact List.mem_cons_self _ _
      · simp only [mapGet, if_neg hp] at h
        exact List.mem_cons_of_mem _ (ih h)

theorem mapGet_mapUpdate {α : Type} (l : List (Nat × α)) (k : Nat) (f : α → α)
    (j : Nat) :
    mapGet (l.map (fun p => if p.1 = k then (p.1, f p.2) else p)) j =
      if j = k then (mapGet l k).map f else mapGet l j := by
  induction l with
  | nil => simp [mapGet]
  | cons p rest ih =>
      by_cases hp : p.1 = k
      · by_cases hj : j = k
        · simp [mapGet, hp, hj]
        · have hkj : ¬k = j := fun h => hj h.symm
          simp [mapGet, hp, hj, ih, hkj]
      · by_cases hpj : p.1 = j
        · have : ¬j = k := fun h => hp (hpj.trans h)
          simp [mapGet, hp, hpj, this]
        · simp [mapGet, hp, hpj, ih]

theorem mapGet_append {α : Type} (l l' : List (Nat × α)) (k : Nat) :
    mapGet (l ++ l') k =
      match mapGet l k with
      | some v => some v
      | none => mapGet l' k := by
  induction l with
  | nil => simp [mapGet]
  | cons p rest ih =>
      by_cases hp : p.1 = k <;> simp [mapGet, hp, ih]

theorem mapSet_of_not_mem {α : Type} {l : List (Nat × α)} {k : Nat} (v : α)
    (h : k ∉ l.map (·.1)) : mapSet l k v = l ++ [(k, v)] := by
  unfold mapSet
  rw [if_neg h]

theorem mapGet_mapSet {α : Type} (l : List (Nat × α)) (k : Nat) (v : α) (j : Nat) :
    mapGet (mapSet l k v) j = if j = k then some v else mapGet l j := by
  unfold mapSet
  by_cases hmem : k ∈ l.map (·.1)
  · rw [if_pos hmem, mapGet_mapUpdate l k (fun _ => v) j]
    by_cases hj : j = k
    · have hne : mapGet l k ≠ none := fun h => ((mapGet_eq_none_iff l k).mp h) hmem
      rcases Option.ne_none_iff_exists'.mp hne with ⟨w, hw⟩
      simp [hj, hw]
    · simp [hj]
  · rw [if_neg hmem, mapGet_append]
    by_cases hj : j = k
    · subst hj
      rw [(mapGet_eq_none_iff l j).mpr hmem]
      simp [mapGet]
    · have hkj : ¬k = j := fun h => hj h.symm
      cases hget : mapGet l j
      · simp [mapGet, hkj, hj]
      · simp [hj]

theorem mapDelete_cons_of_not_mem {α : Type} {l : List (Nat × α)} {k : Nat}
    (v : α) (h : k ∉ l.map (·.1)) : mapDelete ((k, v) :: l) k = l := by
  unfold mapDelete
  rw [List.filter_cons]
  have h1 : (decide ((k, v).1 ≠ k)) = false := by simp
  rw [h1]
  simp only [Bool.false_eq_true, if_false]
  apply List.filter_eq_self.mpr
  intro p hp
  simp only [decide_eq_true_eq, ne_eq]
  intro he
  exact h (List.mem_map.mpr ⟨p, hp, he⟩)

/-- Lookup in a store after `saveAIInsight` onto a live id: the target carries
the stamped insight, every other entry is unchanged. -/
theorem getRankingById_save {s : RankingStore} {id : Nat} {r : Ranking}
    (h : getRankingById s id = some r) (res : AIResult) (now : Nat) (j : Nat) :
    getRankingById (saveAIInsight s id res now).2 j =
      if j = id then some (withInsight { res with generatedAt := now } r)
      else getRankingById s j := by
  have h' : mapGet s.rankings id = some r := h
  show mapGet (saveAIInsight s id res now).2.rankings j = _
  simp only [saveAIInsight, getRankingById, h']
  rw [mapGet_mapUpdate]
  by_cases hj : j = id
  · simp [hj, h']
  · simp [hj]

theorem getAIInsight_save_self {s : RankingStore} {id : Nat} {r : Ranking}
    (h : getRankingById s id = some r) (res : AIResult) (now : Nat) :
    getAIInsight (saveAIInsight s id res now).2 id =
      some { res with generatedAt := now } := by
  unfold getAIInsight
  rw [getRankingById_save h res now id, if_pos rfl]
  rfl

/-- C4 — for an id no longer (or never) in history, `getAIInsight` returns
none and `saveAIInsight` is a state-preserving no-op returning none; for an id
still in history, `saveAIInsight` stores/overwrites the insight stamping its
`generatedAt` with the save time, but — the correction — its return value is
still none (the JS method has no return statement), not the stored insight. -/
theorem save_insight_eviction_semantics (s : RankingStore) (id : Nat)
    (res : AIResult) (now : Nat) :
    (getRankingById s id = none →
      getAIInsight s id = none ∧ saveAIInsight s id res now = (none, s)) ∧
    (∀ r, getRankingById s id = some r →
      (saveAIInsight s id res now).1 = none ∧
      getAIInsight (saveAIInsight s id res now).2 id =
        some { res with generatedAt := now } ∧
      ∀ j, j ≠ id →
        getAIInsight (saveAIInsight s id res now).2 j = getAIInsight s j) := by
  constructor
  · intro h
    constructor
    · simp [getAIInsight, h]
    · simp [saveAIInsight, h]
  · intro r h
    have h' : mapGet s.rankings id = some r := h
    refine ⟨by simp [saveAIInsight, getRankingById, h'], ?_, ?_⟩
    · simp only [saveAIInsight, getRankingById, getAIInsight, h']
      rw [mapGet_mapUpdate]
      simp [h', withInsight]
    · intro j hj
      simp only [saveAIInsight, getRankingById, getAIInsight, h']
      rw [mapGet_mapUpdate]
      simp [hj]

/-- Witness for C4: in a store holding ranking 1, saving onto the evicted id
99 is a no-op returning none, and saving onto the live id 1 stores the stamped
insight while still returning none. -/
theorem save_insight_eviction_semantics_witness :
    (getAIInsight oneRankingStore 99 = none ∧
      saveAIInsight oneRankingStore 99 failedResult 5 = (none, oneRankingStore)) ∧
    ((saveAIInsight oneRankingStore 1 failedResult 5).1 = none ∧
      getAIInsight (saveAIInsight oneRankingStore 1 failedResult 5).2 1 =
        some { failedResult with generatedAt := 5 }) :=
  ⟨(save_insight_eviction_semantics oneRankingStore 99 failedResult 5).1 (by decide),
   ⟨((save_insight_eviction_semantics oneRankingStore 1 failedResult 5).2
      ((createRankingRecord emptyStore sampleData 1 1).1) (by decide)).1,
    ((save_insight_eviction_semantics oneRankingStore 1 failedResult 5).2
      ((createRankingRecord emptyStore sampleData 1 1).1) (by decide)).2.1⟩⟩

/-- Counterexample for C4 as stated: for a live id the claim says `saveInsight`
"returns the stored Insight", but the call stores the stamped insight and still
returns none. -/
theorem save_insight_returns_none :
    (saveAIInsight oneRankingStore 1 failedResult 5).1 = none ∧
    getAIInsight (saveAIInsight oneRankingStore 1 failedResult 5).2 1 =
      some { failedResult with generatedAt := 5 } ∧
    (saveAIInsight oneRankingStore 1 failedResult 5).1 ≠
      some { failedResult with generatedAt := 5 } := by
  refine ⟨by decide, by decide, by decide⟩

/-- Characterization of the selection filter of `getRankingsForReScoring`. -/
theorem mem_selection_iff (s : RankingStore) (now : Nat) (r : Ranking) :
    r ∈ getRankingsForReScoring s now ↔
      r ∈ mapValues s.rankings ∧ r.articles ≠ [] ∧
        (getAIInsight s r.id = none ∨
          ∃ i, getAIInsight s r.id = some i ∧
            (rescoreThreshold : Int) < (now : Int) - (i.generatedAt : Int)) := by
  unfold getRankingsForReScoring getAllRankings
  rw [List.mem_filter,
    (List.perm_insertionSort rankingDesc (mapValues s.rankings)).mem_iff]
  constructor
  · rintro ⟨hmem, hpred⟩
    by_cases hemp : r.articles.isEmpty = true
    · rw [if_pos hemp] at hpred
      cases hpred
    · refine ⟨hmem, by simpa using hemp, ?_⟩
      rw [if_neg hemp] at hpred
      cases hins : getAIInsight s r.id with
      | none => exact Or.inl rfl
      | some i =>
          rw [hins] at hpred
          exact Or.inr ⟨i, rfl, by simpa using hpred⟩
  · rintro ⟨hmem, hne, hins⟩
    refine ⟨hmem, ?_⟩
    have hemp : ¬r.articles.isEmpty = true := by simpa using hne
    rw [if_neg hemp]
    rcases hins with h | ⟨i, hi, hgt⟩
    · rw [h]
    · rw [hi]
      simpa using hgt

/-- C6 — the per-cycle selection `getRankingsForReScoring` contains a snapshot
iff it is stored, its article list is non-empty, and its insight is missing or
strictly older than the 2-hour threshold; in particular a snapshot with
`articles = []` is never selected, whatever its insight. -/
theorem selection_policy_iff (s : RankingStore) (now : Nat) (r : Ranking) :
    r ∈ getRankingsForReScoring s now ↔
      r ∈ mapValues s.rankings ∧ r.articles ≠ [] ∧
        (getAIInsight s r.id = none ∨
          ∃ i, getAIInsight s r.id = some i ∧
            (rescoreThreshold : Int) < (now : Int) - (i.generatedAt : Int)) :=
  mem_selection_iff s now r

/-- C10 — `requestAIScoring` is total at the service boundary: for every input
its result carries the drawn request id, the input's ranking id and a
timestamp, an error message exactly when it did not succeed, and it succeeds
iff the article list is non-empty and the OpenAI call chain returned content;
every internal error (empty articles, missing API key, exhausted retries) is a
returned `success = false` result, never a rejection. -/
theorem request_ai_scoring_total (ranking : Ranking) (requestId now : Nat)
    (apiKey : Option String) (attempts : Nat → Except String String)
    (jsonOf : String → JsonOutcome) (scoreOf : String → Option Int) :
    (requestAIScoring ranking requestId now apiKey attempts jsonOf scoreOf).requestId = requestId ∧
    (requestAIScoring ranking requestId now apiKey attempts jsonOf scoreOf).rankingId = ranking.id ∧
    (requestAIScoring ranking requestId now apiKey attempts jsonOf scoreOf).generatedAt = now ∧
    (requestAIScoring ranking requestId now apiKey attempts jsonOf scoreOf).error.isSome =
      !(requestAIScoring ranking requestId now apiKey attempts jsonOf scoreOf).success ∧
    ((requestAIScoring ranking requestId now apiKey attempts jsonOf scoreOf).success = true ↔
      ranking.articles.isEmpty = false ∧
      ∃ c, callOpenAI apiKey
          (createAnalysisPrompt (articlesForAnalysis ranking.articles) ranking.url)
          attempts = Except.ok c) := by
  unfold requestAIScoring requestAIScoringBody
  by_cases hemp : ranking.articles.isEmpty = true
  · simp [hemp]
  · cases hc : callOpenAI apiKey
        (createAnalysisPrompt (articlesForAnalysis ranking.articles) ranking.url)
        attempts <;>
      simp [hemp, hc]

/-- Per-ranking feedback lists accumulate in submission order. -/
theorem addAll_feedback_get (fds : List (FeedbackData × Nat × Nat)) :
    ∀ (s : RankingStore) (rid : Nat),
      (mapGet (addAll s fds).feedback rid).getD [] =
        (mapGet s.feedback rid).getD [] ++
          (fds.filter (fun x => decide (x.1.rankingId = rid))).map feedbackEntryOf := by
  induction fds with
  | nil => intro s rid; simp [addAll]
  | cons x rest ih =>
      intro s rid
      have hstep : addAll s (x :: rest) = addAll (addFeedback s x.1 x.2.1 x.2.2).2 rest := rfl
      rw [hstep, ih]
      unfold addFeedback
      simp only [List.filter_cons]
      rw [mapGet_mapSet]
      by_cases hr : rid = x.1.rankingId
      · rw [if_pos hr, if_pos (by simp [hr])]
        simp [feedbackEntryOf, hr]
      · have hxr : ¬x.1.rankingId = rid := fun h => hr h.symm
        rw [if_neg hr, if_neg (by simp [hxr])]

/-- C9 (amended) — the unfiltered `listFeedback` returns all entries sorted
newest first (a permutation of the stored entries, non-increasing in
`submittedAt`); with a `rankingId` filter, however, part_004 returns the
stored per-ranking array as is, i.e. in submission (oldest-first) order, not
newest first. -/
theorem feedback_listing_order :
    (∀ s : RankingStore,
      List.Sorted feedbackDesc (listFeedback s none) ∧
      List.Perm (listFeedback s none) ((s.feedback.map (·.2)).flatten)) ∧
    (∀ (fds : List (FeedbackData × Nat × Nat)) (rid : Nat),
      listFeedback (addAll emptyStore fds) (some rid) =
        (fds.filter (fun x => decide (x.1.rankingId = rid))).map feedbackEntryOf) := by
  constructor
  · intro s
    exact ⟨List.sorted_insertionSort feedbackDesc _,
      List.perm_insertionSort feedbackDesc _⟩
  · intro fds rid
    have h := addAll_feedback_get fds emptyStore rid
    simpa [listFeedback, emptyStore, mapGet] using h

/-- Counterexample for C9 as stated: two feedback entries for ranking 7
submitted at times 1 then 2; the filtered listing returns them oldest first,
so it is not sorted newest first. -/
theorem filtered_feedback_not_sorted :
    (listFeedback feedbackStore (some 7)).map (·.submittedAt) = [1, 2] ∧
    ¬List.Sorted feedbackDesc (listFeedback feedbackStore (some 7)) := by
  refine ⟨by decide, by decide⟩

/-- Counterexample for C1 as stated: the class-based store of part_004 (whose
`createRankingRecord`/`getAllRankings` the claim names) has no capacity bound;
with the claim's N = 2 instance, creating A, B, C (ids 1, 2, 3) leaves
`getAllRankings` = [C, B, A] of length 3: nothing is evicted and the result is
not [C, B]. -/
theorem history_unbounded_in_class_store :
    (getAllRankings threeCreates).map (·.id) = [3, 2, 1] ∧
    (getAllRankings threeCreates).length = 3 := by
  refine ⟨by decide, by decide⟩

/-- Counterexample for C2 as stated: after `overflowEvents` (a cycle whose one
job is still suspended, two fresh snapshots, and a second cycle that passes the
`activeJobs.size >= maxConcurrentJobs` gate with one slot taken and then
launches `maxConcurrentJobs` more jobs) three jobs are active while
`maxConcurrentJobs = 2`. -/
theorem active_jobs_exceed_max :
    sysOverflow.sched.maxConcurrentJobs = 2 ∧
    sysOverflow.sched.activeJobs = [(100, 1), (200, 3), (200, 2)] ∧
    sysOverflow.sched.activeJobs.length = 3 := by
  refine ⟨by decide, by decide, by decide⟩

/-- Counterexample for C3 as stated: ranking 1's provider call fails
(`failedResult.success = false`), yet after the job completes the store's
insight for it is present and freshly stamped — not "stale or absent" — and
the next cycle's selection scan returns nothing, so the snapshot is not
re-selected. -/
theorem provider_failure_insight_not_absent :
    failedResult.success = false ∧
    (getAIInsight sysFailure.store 1).isSome = true ∧
    (getAIInsight sysFailure.store 1).map (·.generatedAt) = some 20 ∧
    getRankingsForReScoring sysFailure.store 30 = [] := by
  refine ⟨by decide, by decide, by decide, by decide⟩

/-- A job's synchronous opening segment only touches `activeJobs`/`pending`. -/
theorem launchJob_fields (avail : Bool) (now : Nat) (store : RankingStore)
    (cycleId : Nat) (sched : SchedulerState) (r : Ranking) :
    (launchJob avail now store cycleId sched r).isRunning = sched.isRunning ∧
    (launchJob avail now store cycleId sched r).intervalId = sched.intervalId ∧
    (launchJob avail now store cycleId sched r).intervalMs = sched.intervalMs ∧
    (launchJob avail now store cycleId sched r).maxConcurrentJobs = sched.maxConcurrentJobs ∧
    (launchJob avail now store cycleId sched r).timers = sched.timers := by
  unfold launchJob
  by_cases h1 : avail = false
  · simp [h1]
  · by_cases h2 : hasRecentInsight (getAIInsight store r.id) now = true
    · simp [h1, h2]
    · simp [h1, h2]

/-- Launching a batch of jobs only touches `activeJobs`/`pending`. -/
theorem foldl_launch_fields (avail : Bool) (now : Nat) (store : RankingStore)
    (cycleId : Nat) (l : List Ranking) :
    ∀ sched : SchedulerState,
      (l.foldl (launchJob avail now store cycleId) sched).isRunning = sched.isRunning ∧
      (l.foldl (launchJob avail now store cycleId) sched).intervalId = sched.intervalId ∧
      (l.foldl (launchJob avail now store cycleId) sched).intervalMs = sched.intervalMs ∧
      (l.foldl (launchJob avail now store cycleId) sched).maxConcurrentJobs = sched.maxConcurrentJobs ∧
      (l.foldl (launchJob avail now store cycleId) sched).timers = sched.timers := by
  induction l with
  | nil => intro sched; simp
  | cons r rest ih =>
      intro sched
      have h1 := launchJob_fields avail now store cycleId sched r
      have h2 := ih (launchJob avail now store cycleId sched r)
      rw [List.foldl_cons]
      exact ⟨h2.1.trans h1.1, (h2.2.1).trans h1.2.1, (h2.2.2.1).trans h1.2.2.1,
        (h2.2.2.2.1).trans h1.2.2.2.1, (h2.2.2.2.2).trans h1.2.2.2.2⟩

/-- A cycle's synchronous turn leaves the store and every scheduler field other
than `activeJobs`/`pending` unchanged. -/
theorem runReScoringCycle_fields (sys : SysState) (cycleId now : Nat) (avail : Bool) :
    (runReScoringCycle sys cycleId now avail).store = sys.store ∧
    (runReScoringCycle sys cycleId now avail).sched.isRunning = sys.sched.isRunning ∧
    (runReScoringCycle sys cycleId now avail).sched.intervalId = sys.sched.intervalId ∧
    (runReScoringCycle sys cycleId now avail).sched.intervalMs = sys.sched.intervalMs ∧
    (runReScoringCycle sys cycleId now avail).sched.maxConcurrentJobs = sys.sched.maxConcurrentJobs ∧
    (runReScoringCycle sys cycleId now avail).sched.timers = sys.sched.timers := by
  unfold runReScoringCycle
  by_cases h1 : sys.sched.maxConcurrentJobs ≤ sys.sched.activeJobs.length
  · simp [h1]
  · by_cases h2 : (getRankingsForReScoring sys.store now).isEmpty = true
    · simp [h1, h2]
    · have hf := foldl_launch_fields avail now sys.store cycleId
        ((getRankingsForReScoring sys.store now).take sys.sched.maxConcurrentJobs)
        sys.sched
      simp [h1, h2, hf.1, hf.2.1, hf.2.2.1, hf.2.2.2.1, hf.2.2.2.2]

/-- C7 — `start` twice in a row yields the very same combined state as once
(the second call sees `isRunning` and returns; in particular there is no
second timer and the interval is unchanged); `stop` while stopped is a no-op;
and `start` from a stopped scheduler sets the running flag, records the
interval, and arms exactly one new timer. -/
theorem start_stop_idempotent (sys : SysState) (ms t cid now : Nat) (avail : Bool)
    (ms' t' cid' now' : Nat) (avail' : Bool) :
    schedulerStart (schedulerStart sys ms t cid now avail) ms' t' cid' now' avail' =
      schedulerStart sys ms t cid now avail ∧
    (sys.sched.isRunning = false → schedulerStop sys = sys) ∧
    (sys.sched.isRunning = false →
      (schedulerStart sys ms t cid now avail).sched.isRunning = true ∧
      (schedulerStart sys ms t cid now avail).sched.intervalMs = ms ∧
      (schedulerStart sys ms t cid now avail).sched.timers = sys.sched.timers ++ [t] ∧
      (schedulerStart sys ms t cid now avail).sched.intervalId = some t) := by
  have hstart : ∀ (s : SysState), s.sched.isRunning = true →
      ∀ a b c d e, schedulerStart s a b c d e = s := by
    intro s hs a b c d e
    unfold schedulerStart
    rw [if_pos hs]
  by_cases h : sys.sched.isRunning = true
  · have h1 := hstart sys h ms t cid now avail
    refine ⟨?_, ?_, ?_⟩
    · rw [h1, hstart sys h ms' t' cid' now' avail']
    · intro habs; rw [habs] at h; cases h
    · intro habs; rw [habs] at h; cases h
  · have hfalse : sys.sched.isRunning = false := by
      cases hb : sys.sched.isRunning
      · rfl
      · exact absurd hb h
    have hf := runReScoringCycle_fields
      { sys with sched := { sys.sched with intervalMs := ms, isRunning := true } }
      cid now avail
    have hstate : (schedulerStart sys ms t cid now avail).sched.isRunning = true ∧
        (schedulerStart sys ms t cid now avail).sched.intervalMs = ms ∧
        (schedulerStart sys ms t cid now avail).sched.timers = sys.sched.timers ++ [t] ∧
        (schedulerStart sys ms t cid now avail).sched.intervalId = some t := by
      unfold schedulerStart
      rw [if_neg h]
      refine ⟨?_, ?_, ?_, ?_⟩
      · simpa using hf.2.1
      · simpa using hf.2.2.2.1
      · simpa using hf.2.2.2.2.2
      · simp
    refine ⟨?_, ?_, fun _ => hstate⟩
    · exact hstart _ hstate.1 ms' t' cid' now' avail'
    · intro _
      unfold schedulerStop
      rw [hfalse]
      simp

/-- Witness for C7: from the initial (stopped, timerless) state, `stop` is a
no-op and one `start` call arms exactly the one timer 9 with interval 500. -/
theorem start_stop_idempotent_witness :
    schedulerStop initialState = initialState ∧
    (schedulerStart initialState 500 9 300 50 true).sched.isRunning = true ∧
    (schedulerStart initialState 500 9 300 50 true).sched.intervalMs = 500 ∧
    (schedulerStart initialState 500 9 300 50 true).sched.timers =
      initialState.sched.timers ++ [9] :=
  ⟨(start_stop_idempotent initialState 500 9 300 50 true 0 0 0 0 true).2.1 (by decide),
   ((start_stop_idempotent initialState 500 9 300 50 true 0 0 0 0 true).2.2 (by decide)).1,
   ((start_stop_idempotent initialState 500 9 300 50 true 0 0 0 0 true).2.2 (by decide)).2.1,
   ((start_stop_idempotent initialState 500 9 300 50 true 0 0 0 0 true).2.2 (by decide)).2.2.1⟩

theorem setAdd_length_le (l : List JobId) (x : JobId) :
    (setAdd l x).length ≤ l.length + 1 := by
  unfold setAdd
  split
  · exact Nat.le_succ _
  · simp

theorem setDelete_length_le (l : List JobId) (x : JobId) :
    (setDelete l x).length ≤ l.length :=
  List.length_filter_le _ _

/-- One job launch grows the active set by at most one. -/
theorem launchJob_length_le (avail : Bool) (now : Nat) (store : RankingStore)
    (cycleId : Nat) (sched : SchedulerState) (r : Ranking) :
    (launchJob avail now store cycleId sched r).activeJobs.length ≤
      sched.activeJobs.length + 1 := by
  unfold launchJob
  by_cases h1 : avail = false
  · simp only [h1, if_true, Bool.false_eq_true]
    exact le_trans (setDelete_length_le _ _) (setAdd_length_le _ _)
  · by_cases h2 : hasRecentInsight (getAIInsight store r.id) now = true
    · simp only [h1, h2, if_false, if_true, Bool.false_eq_true]
      exact le_trans (setDelete_length_le _ _) (setAdd_length_le _ _)
    · simp only [h1, h2, if_false, Bool.false_eq_true]
      exact setAdd_length_le _ _

/-- A batch launch grows the active set by at most the batch size. -/
theorem foldl_launch_length_le (avail : Bool) (now : Nat) (store : RankingStore)
    (cycleId : Nat) (l : List Ranking) :
    ∀ sched : SchedulerState,
      (l.foldl (launchJob avail now store cycleId) sched).activeJobs.length ≤
        sched.activeJobs.length + l.length := by
  induction l with
  | nil => intro sched; simp
  | cons r rest ih =>
      intro sched
      rw [List.foldl_cons]
      calc (rest.foldl (launchJob avail now store cycleId)
              (launchJob avail now store cycleId sched r)).activeJobs.length
          ≤ (launchJob avail now store cycleId sched r).activeJobs.length + rest.length :=
            ih _
        _ ≤ sched.activeJobs.length + 1 + rest.length := by
            have := launchJob_length_le avail now store cycleId sched r
            omega
        _ = sched.activeJobs.length + (r :: rest).length := by
            simp [List.length_cons]
            omega

/-- A cycle keeps `maxConcurrentJobs` and keeps the active-job count at or
below `2 * maxConcurrentJobs - 1`: it only runs when at least one slot is
free and then launches at most `maxConcurrentJobs` jobs. -/
theorem runReScoringCycle_bound (sys : SysState) (cycleId now : Nat) (avail : Bool)
    (m : Nat) (h1 : sys.sched.maxConcurrentJobs = m)
    (h2 : sys.sched.activeJobs.length ≤ 2 * m - 1) :
    (runReScoringCycle sys cycleId now avail).sched.maxConcurrentJobs = m ∧
    (runReScoringCycle sys cycleId now avail).sched.activeJobs.length ≤ 2 * m - 1 := by
  have hfields := runReScoringCycle_fields sys cycleId now avail
  refine ⟨hfields.2.2.2.2.1.trans h1, ?_⟩
  by_cases hg : sys.sched.maxConcurrentJobs ≤ sys.sched.activeJobs.length
  · have hid : runReScoringCycle sys cycleId now avail = sys := by
      unfold runReScoringCycle
      rw [if_pos hg]
    rw [hid]
    exact h2
  · by_cases he : (getRankingsForReScoring sys.store now).isEmpty = true
    · have hid : runReScoringCycle sys cycleId now avail = sys := by
        unfold runReScoringCycle
        rw [if_neg hg]
        simp [he]
      rw [hid]
      exact h2
    · have hstep : runReScoringCycle sys cycleId now avail =
          { sys with
              sched := ((getRankingsForReScoring sys.store now).take
                sys.sched.maxConcurrentJobs).foldl
                  (launchJob avail now sys.store cycleId) sys.sched } := by
        unfold runReScoringCycle
        rw [if_neg hg]
        simp [he]
      rw [hstep]
      have hlaunch := foldl_launch_length_le avail now sys.store cycleId
        ((getRankingsForReScoring sys.store now).take sys.sched.maxConcurrentJobs)
        sys.sched
      have htake : ((getRankingsForReScoring sys.store now).take
          sys.sched.maxConcurrentJobs).length ≤ sys.sched.maxConcurrentJobs := by
        rw [List.length_take]
        exact min_le_left _ _
      show (((getRankingsForReScoring sys.store now).take
          sys.sched.maxConcurrentJobs).foldl
            (launchJob avail now sys.store cycleId) sys.sched).activeJobs.length ≤
          2 * m - 1
      omega

/-- `stop` only touches the running flag and the timer bookkeeping. -/
theorem schedulerStop_fields (sys : SysState) :
    (schedulerStop sys).sched.maxConcurrentJobs = sys.sched.maxConcurrentJobs ∧
    (schedulerStop sys).sched.activeJobs = sys.sched.activeJobs ∧
    (schedulerStop sys).sched.pending = sys.sched.pending ∧
    (schedulerStop sys).store = sys.store := by
  unfold schedulerStop
  by_cases hr : sys.sched.isRunning = true
  · rw [if_pos hr]
    cases hi : sys.sched.intervalId <;> simp [hi]
  · rw [if_neg hr]
    simp

/-- Every event keeps `maxConcurrentJobs` and the `2 * maxConcurrentJobs - 1`
bound on the active-job count. -/
theorem stepEvent_bound (sys : SysState) (e : Event) (m : Nat)
    (h1 : sys.sched.maxConcurrentJobs = m)
    (h2 : sys.sched.activeJobs.length ≤ 2 * m - 1) :
    (stepEvent sys e).sched.maxConcurrentJobs = m ∧
    (stepEvent sys e).sched.activeJobs.length ≤ 2 * m - 1 := by
  cases e with
  | create data id now => exact ⟨h1, h2⟩
  | cleanup now maxAge => exact ⟨h1, h2⟩
  | cycle cycleId now avail => exact runReScoringCycle_bound sys cycleId now avail m h1 h2
  | resume cycleId rankingId aiResult now =>
      simp only [stepEvent]
      unfold resumeJob
      split
      · exact ⟨h1, le_trans (setDelete_length_le _ _) h2⟩
      · exact ⟨h1, h2⟩
  | resumeErr cycleId rankingId =>
      simp only [stepEvent]
      unfold resumeJobFailure
      split
      · exact ⟨h1, le_trans (setDelete_length_le _ _) h2⟩
      · exact ⟨h1, h2⟩
  | stop =>
      have hs := schedulerStop_fields sys
      refine ⟨hs.1.trans h1, ?_⟩
      show (schedulerStop sys).sched.activeJobs.length ≤ 2 * m - 1
      rw [hs.2.1]
      exact h2
  | start intervalMs timerId cycleId now avail =>
      simp only [stepEvent]
      unfold schedulerStart
      by_cases hr : sys.sched.isRunning = true
      · rw [if_pos hr]
        exact ⟨h1, h2⟩
      · rw [if_neg hr]
        have hc := runReScoringCycle_bound
          { sys with sched := { sys.sched with intervalMs := intervalMs, isRunning := true } }
          cycleId now avail m h1 h2
        exact ⟨hc.1, hc.2⟩

/-- C2 (amended) — under every interleaving of snapshot creations, cleanups,
cycles (timer-driven or forced), job completions, and start/stop calls, the
active-job count never exceeds `2 * maxConcurrentJobs - 1` (3 for the
constructor's `maxConcurrentJobs = 2`): a cycle only starts below
`maxConcurrentJobs` but may then launch `maxConcurrentJobs` further jobs, so
the claimed bound of `maxConcurrentJobs` itself does not hold (see the
counterexample), while this weaker bound is invariant. -/
theorem active_jobs_bounded_by_twice_max (m : Nat) (events : List Event) :
    (runEvents (initialStateWith m) events).sched.maxConcurrentJobs = m ∧
    (runEvents (initialStateWith m) events).sched.activeJobs.length ≤ 2 * m - 1 := by
  suffices h : ∀ (evs : List Event) (sys : SysState),
      sys.sched.maxConcurrentJobs = m →
      sys.sched.activeJobs.length ≤ 2 * m - 1 →
      (runEvents sys evs).sched.maxConcurrentJobs = m ∧
      (runEvents sys evs).sched.activeJobs.length ≤ 2 * m - 1 by
    exact h events (initialStateWith m) rfl (by simp [initialStateWith, initialSchedulerWith])
  intro evs
  induction evs with
  | nil => intro sys h1 h2; exact ⟨h1, h2⟩
  | cons e rest ih =>
      intro sys h1 h2
      have hstep := stepEvent_bound sys e m h1 h2
      exact ih (stepEvent sys e) hstep.1 hstep.2

theorem mem_setAdd {l : List JobId} {x y : JobId} (h : y ∈ setAdd l x) :
    y ∈ l ∨ y = x := by
  unfold setAdd at h
  split at h
  · exact Or.inl h
  · rcases List.mem_append.mp h with h | h
    · exact Or.inl h
    · simp only [List.mem_singleton] at h
      exact Or.inr h

theorem mem_setDelete {l : List JobId} {x y : JobId} (h : y ∈ setDelete l x) :
    y ∈ l ∧ y ≠ x := by
  unfold setDelete at h
  have h' := List.mem_filter.mp h
  exact ⟨h'.1, by simpa using h'.2⟩

theorem notMem_setDelete (l : List JobId) (x : JobId) : x ∉ setDelete l x := by
  intro h
  exact (mem_setDelete h).2 rfl

theorem mem_removePendingJob {l : List PendingJob} {p : PendingJob} {c r : Nat}
    (hp : p ∈ l) (hne : ¬(p.cycleId = c ∧ p.rankingId = r)) :
    p ∈ removePendingJob l c r := by
  induction l with
  | nil => cases hp
  | cons q rest ih =>
      unfold removePendingJob
      rcases List.mem_cons.mp hp with h | h
      · subst h
        rw [if_neg hne]
        exact List.mem_cons_self _ _
      · split
        · exact h
        · exact List.mem_cons_of_mem _ (ih h)

/-- A job launch preserves the active-ids-are-pending invariant: a skipped job
is deregistered within the same synchronous segment, a suspending job is
appended to the pending list. -/
theorem launchJob_reg (avail : Bool) (now : Nat) (store : RankingStore)
    (cycleId : Nat) (sched : SchedulerState) (r : Ranking)
    (h : SchedReg sched) : SchedReg (launchJob avail now store cycleId sched r) := by
  unfold launchJob
  by_cases h1 : avail = false
  · simp only [h1, if_true]
    intro j hj
    rcases mem_setDelete hj with ⟨hj', hne⟩
    rcases mem_setAdd hj' with hmem | heq
    · exact h j hmem
    · exact absurd heq hne
  · by_cases h2 : hasRecentInsight (getAIInsight store r.id) now = true
    · simp only [h1, h2, if_false, if_true, Bool.false_eq_true]
      intro j hj
      rcases mem_setDelete hj with ⟨hj', hne⟩
      rcases mem_setAdd hj' with hmem | heq
      · exact h j hmem
      · exact absurd heq hne
    · simp only [h1, h2, if_false, Bool.false_eq_true]
      intro j hj
      rcases mem_setAdd hj with hmem | heq
      · rcases h j hmem with ⟨p, hp, hpj⟩
        exact ⟨p, List.mem_append_left _ hp, hpj⟩
      · exact ⟨⟨cycleId, r.id⟩,
          List.mem_append_right _ (List.mem_singleton.mpr rfl), heq.symm⟩

theorem foldl_launch_reg (avail : Bool) (now : Nat) (store : RankingStore)
    (cycleId : Nat) (l : List Ranking) :
    ∀ sched : SchedulerState, SchedReg sched →
      SchedReg (l.foldl (launchJob avail now store cycleId) sched) := by
  induction l with
  | nil => intro sched h; exact h
  | cons r rest ih =>
      intro sched h
      rw [List.foldl_cons]
      exact ih _ (launchJob_reg avail now store cycleId sched r h)

/-- A cycle preserves the active-ids-are-pending invariant. -/
theorem runReScoringCycle_reg (sys : SysState) (cycleId now : Nat) (avail : Bool)
    (h : RegInv sys) : RegInv (runReScoringCycle sys cycleId now avail) := by
  by_cases hg : sys.sched.maxConcurrentJobs ≤ sys.sched.activeJobs.length
  · have hid : runReScoringCycle sys cycleId now avail = sys := by
      unfold runReScoringCycle
      rw [if_pos hg]
    rw [hid]
    exact h
  · by_cases he : (getRankingsForReScoring sys.store now).isEmpty = true
    · have hid : runReScoringCycle sys cycleId now avail = sys := by
        unfold runReScoringCycle
        rw [if_neg hg]
        simp [he]
      rw [hid]
      exact h
    · have hstep : runReScoringCycle sys cycleId now avail =
          { sys with
              sched := ((getRankingsForReScoring sys.store now).take
                sys.sched.maxConcurrentJobs).foldl
                  (launchJob avail now sys.store cycleId) sys.sched } := by
        unfold runReScoringCycle
        rw [if_neg hg]
        simp [he]
      rw [hstep]
      exact foldl_launch_reg avail now sys.store cycleId _ sys.sched h

/-- Every event preserves the active-ids-are-pending invariant. -/
theorem stepEvent_reg (sys : SysState) (e : Event) (h : RegInv sys) :
    RegInv (stepEvent sys e) := by
  cases e with
  | create data id now => exact h
  | cleanup now maxAge => exact h
  | cycle cycleId now avail => exact runReScoringCycle_reg sys cycleId now avail h
  | resume cycleId rankingId aiResult now =>
      simp only [stepEvent]
      unfold resumeJob
      split
      · intro j hj
        rcases mem_setDelete hj with ⟨hj', hne⟩
        rcases h j hj' with ⟨p, hp, hpj⟩
        refine ⟨p, ?_, hpj⟩
        apply mem_removePendingJob hp
        intro hpc
        apply hne
        rw [← hpj]
        unfold jobIdOf
        rw [hpc.1, hpc.2]
      · exact h
  | resumeErr cycleId rankingId =>
      simp only [stepEvent]
      unfold resumeJobFailure
      split
      · intro j hj
        rcases mem_setDelete hj with ⟨hj', hne⟩
        rcases h j hj' with ⟨p, hp, hpj⟩
        refine ⟨p, ?_, hpj⟩
        apply mem_removePendingJob hp
        intro hpc
        apply hne
        rw [← hpj]
        unfold jobIdOf
        rw [hpc.1, hpc.2]
      · exact h
  | stop =>
      have hs := schedulerStop_fields sys
      show SchedReg (schedulerStop sys).sched
      unfold SchedReg
      rw [hs.2.1, hs.2.2.1]
      exact h
  | start intervalMs timerId cycleId now avail =>
      simp only [stepEvent]
      unfold schedulerStart
      by_cases hr : sys.sched.isRunning = true
      · rw [if_pos hr]
        exact h
      · rw [if_neg hr]
        have hc : RegInv (runReScoringCycle
            { sys with sched := { sys.sched with intervalMs := intervalMs, isRunning := true } }
            cycleId now avail) :=
          runReScoringCycle_reg _ cycleId now avail h
        intro j hj
        exact hc j hj

/-- C8 — active job ids always belong to still-pending jobs: every launch path
that skips (service unavailable, insight became recent) deregisters its id
within the same synchronous segment, and both the save path and the catch path
of a resuming job deregister its id via the `finally` clause, so after all of
a cycle's jobs settle none of its ids remain active; moreover resuming a job
(normally or exceptionally) always leaves its id inactive. -/
theorem job_always_deregistered (events : List Event) :
    (∀ j ∈ (runEvents initialState events).sched.activeJobs,
      ∃ p ∈ (runEvents initialState events).sched.pending, jobIdOf p = j) ∧
    (∀ cid rid res now, (cid, rid) ∉
      (stepEvent (runEvents initialState events) (Event.resume cid rid res now)).sched.activeJobs) ∧
    (∀ cid rid, (cid, rid) ∉
      (stepEvent (runEvents initialState events) (Event.resumeErr cid rid)).sched.activeJobs) := by
  have hreg : ∀ (evs : List Event) (sys : SysState), RegInv sys → RegInv (runEvents sys evs) := by
    intro evs
    induction evs with
    | nil => intro sys h; exact h
    | cons e rest ih => intro sys h; exact ih (stepEvent sys e) (stepEvent_reg sys e h)
  have h0 : RegInv initialState := by
    intro j hj
    cases hj
  have hfin : RegInv (runEvents initialState events) := hreg events initialState h0
  refine ⟨hfin, ?_, ?_⟩
  · intro cid rid res now
    simp only [stepEvent]
    unfold resumeJob
    split
    · exact notMem_setDelete _ _
    · intro hj
      rcases hfin (cid, rid) hj with ⟨p, hp, hpj⟩
      have hpeq : p = ⟨cid, rid⟩ := by
        cases p
        unfold jobIdOf at hpj
        simp only [Prod.mk.injEq] at hpj
        simp [hpj.1, hpj.2]
      rename_i hguard
      exact hguard (hpeq ▸ hp)
  · intro cid rid
    simp only [stepEvent]
    unfold resumeJobFailure
    split
    · exact notMem_setDelete _ _
    · intro hj
      rcases hfin (cid, rid) hj with ⟨p, hp, hpj⟩
      have hpeq : p = ⟨cid, rid⟩ := by
        cases p
        unfold jobIdOf at hpj
        simp only [Prod.mk.injEq] at hpj
        simp [hpj.1, hpj.2]
      rename_i hguard
      exact hguard (hpeq ▸ hp)

/-- Witness for C8: in the state with the one suspended job (100, 1), the
active id (100, 1) indeed has a pending job, and resuming it leaves it
inactive. -/
theorem job_always_deregistered_witness :
    (∃ p ∈ sysPendingOne.sched.pending, jobIdOf p = (100, 1)) ∧
    (100, 1) ∉
      (stepEvent sysPendingOne (Event.resume 100 1 failedResult 20)).sched.activeJobs :=
  ⟨(job_always_deregistered
      [Event.create sampleData 1 0, Event.cycle 100 10 true]).1 (100, 1) (by decide),
   (job_always_deregistered
      [Event.create sampleData 1 0, Event.cycle 100 10 true]).2.1 100 1 failedResult 20⟩

/-- C3 (amended) — a scheduler job whose provider call settles is recovered
locally: the job id is always released and the scheduler state stays
well-defined (no crash, no retry within the cycle; `requestAIScoring` itself
never rejects, encoding failures as `success=false` results — see C10).  The
correction: the settled result `res` — failed or not — is saved through
`saveAIInsight` with a freshly stamped `generatedAt`, so the insight does not
remain stale or absent, and the snapshot is re-selected by a later scan if and
only if its articles are non-empty and that new stamp has aged past the
2-hour threshold — not naturally at the next cycle. -/
theorem provider_failure_saved_and_not_reselected (sys : SysState)
    (cid rid now : Nat) (res : AIResult) (rk : Ranking)
    (hp : (⟨cid, rid⟩ : PendingJob) ∈ sys.sched.pending)
    (hr : getRankingById sys.store rid = some rk)
    (hid : rk.id = rid) :
    (cid, rid) ∉ (resumeJob sys cid rid res now).sched.activeJobs ∧
    getAIInsight (resumeJob sys cid rid res now).store rid =
      some { res with generatedAt := now } ∧
    ∀ now' : Nat,
      withInsight { res with generatedAt := now } rk ∈
          getRankingsForReScoring (resumeJob sys cid rid res now).store now' ↔
        (rk.articles ≠ [] ∧ (rescoreThreshold : Int) < (now' : Int) - (now : Int)) := by
  have hstep : resumeJob sys cid rid res now =
      { store := (saveAIInsight sys.store rid res now).2
        sched :=
          { sys.sched with
              activeJobs := setDelete sys.sched.activeJobs (cid, rid)
              pending := removePendingJob sys.sched.pending cid rid } } := by
    unfold resumeJob
    rw [if_pos hp]
  rw [hstep]
  refine ⟨notMem_setDelete _ _, getAIInsight_save_self hr res now, ?_⟩
  intro now'
  have hrk' : getRankingById (saveAIInsight sys.store rid res now).2 rid =
      some (withInsight { res with generatedAt := now } rk) := by
    rw [getRankingById_save hr res now rid, if_pos rfl]
  have hins : getAIInsight (saveAIInsight sys.store rid res now).2 rid =
      some { res with generatedAt := now } := getAIInsight_save_self hr res now
  have hid' : (withInsight { res with generatedAt := now } rk).id = rid := hid
  have harts : (withInsight { res with generatedAt := now } rk).articles = rk.articles := rfl
  rw [mem_selection_iff]
  constructor
  · rintro ⟨_, hne, hsel⟩
    refine ⟨by rwa [harts] at hne, ?_⟩
    rw [hid', hins] at hsel
    rcases hsel with hnone | ⟨i, hi, hgt⟩
    · cases hnone
    · cases hi
      exact hgt
  · rintro ⟨hne, hgt⟩
    refine ⟨?_, by rwa [harts], ?_⟩
    · exact List.mem_map.mpr ⟨(rid, withInsight { res with generatedAt := now } rk),
        mapGet_mem hrk', rfl⟩
    · rw [hid', hins]
      exact Or.inr ⟨{ res with generatedAt := now }, rfl, hgt⟩

/-- Witness for C3: resuming the suspended job (100, 1) with the concrete
failed result deregisters the job, stores the failed insight stamped at 20,
and the next scan at time 30 does not re-select the snapshot (its age, 10 ms,
is below the threshold). -/
theorem provider_failure_saved_and_not_reselected_witness :
    (100, 1) ∉ (resumeJob sysPendingOne 100 1 failedResult 20).sched.activeJobs ∧
    getAIInsight (resumeJob sysPendingOne 100 1 failedResult 20).store 1 =
      some { failedResult with generatedAt := 20 } ∧
    withInsight { failedResult with generatedAt := 20 } pendingRanking ∉
      getRankingsForReScoring (resumeJob sysPendingOne 100 1 failedResult 20).store 30 :=
  ⟨(provider_failure_saved_and_not_reselected sysPendingOne 100 1 20 failedResult
      pendingRanking (by decide) (by decide) (by decide)).1,
   (provider_failure_saved_and_not_reselected sysPendingOne 100 1 20 failedResult
      pendingRanking (by decide) (by decide) (by decide)).2.1,
   fun hmem =>
    absurd (((provider_failure_saved_and_not_reselected sysPendingOne 100 1 20 failedResult
      pendingRanking (by decide) (by decide) (by decide)).2.2 30).mp hmem).2 (by decide)⟩

theorem prune_eq_self {s : FnStore} (h : s.rankingOrder.length ≤ MAX_RANKINGS_STORED) :
    pruneHistoryIfNeeded s = s := by
  unfold pruneHistoryIfNeeded
  rw [if_neg (by omega)]

theorem prune_cons {s : FnStore} {a : Nat} {rest : List Nat}
    (horder : s.rankingOrder = a :: rest)
    (hlen : MAX_RANKINGS_STORED < s.rankingOrder.length) :
    pruneHistoryIfNeeded s =
      pruneHistoryIfNeeded
        { s with
            rankingOrder := rest
            rankingHistory := mapDelete s.rankingHistory a
            aiInsights := mapDelete s.aiInsights a } := by
  conv_lhs => rw [pruneHistoryIfNeeded]
  rw [if_pos hlen]
  split
  · rename_i heq
    rw [horder] at heq
    cases heq
  · rename_i oldestId rest' heq
    rw [horder] at heq
    injection heq with h1 h2
    rw [h1, h2]

theorem fnKept_of_le {l : List FnCreateItem} (h : l.length ≤ MAX_RANKINGS_STORED) :
    fnKept l = l := by
  unfold fnKept
  rw [Nat.sub_eq_zero_of_le h, List.drop_zero]

theorem fnKept_cons_of_lt {it : FnCreateItem} {rest : List FnCreateItem}
    (h : MAX_RANKINGS_STORED < (it :: rest).length) :
    fnKept (it :: rest) = fnKept rest := by
  unfold fnKept
  simp only [List.length_cons]
  have h1 : rest.length + 1 - MAX_RANKINGS_STORED = (rest.length - MAX_RANKINGS_STORED) + 1 := by
    simp only [List.length_cons] at h
    omega
  rw [h1, List.drop_succ_cons]

theorem prune_assoc (items : List FnCreateItem) :
    ∀ s : FnStore,
      ((items.map (·.id)).Nodup) →
      s.rankingOrder = items.map (·.id) →
      s.rankingHistory = items.map (fun it => (it.id, fnRecordOf it)) →
      s.aiInsights = [] →
      pruneHistoryIfNeeded s =
        { rankingHistory := (fnKept items).map (fun it => (it.id, fnRecordOf it))
          rankingOrder := (fnKept items).map (·.id)
          feedbackEntries := s.feedbackEntries
          aiInsights := []
          currentRankingId := s.currentRankingId } := by
  induction items with
  | nil =>
      intro s hnd ho hh hi
      rw [prune_eq_self (by rw [ho]; simp [MAX_RANKINGS_STORED])]
      cases s
      simp_all [fnKept]
  | cons it rest ih =>
      intro s hnd ho hh hi
      by_cases hlen : (it :: rest).length ≤ MAX_RANKINGS_STORED
      · rw [prune_eq_self (by rw [ho]; simpa using hlen)]
        rw [fnKept_of_le hlen]
        cases s
        simp_all
      · have hlt : MAX_RANKINGS_STORED < (it :: rest).length := by omega
        have hstep := @prune_cons s it.id (rest.map (·.id))
          (by rw [ho]; rfl) (by rw [ho]; simpa using hlt)
        rw [hstep]
        have hfresh : it.id ∉ (rest.map (fun it => (it.id, fnRecordOf it))).map (·.1) := by
          simp only [List.map_map]
          simp only [List.map_cons, List.nodup_cons] at hnd
          intro hmem
          exact hnd.1 (by simpa using hmem)
        have hdelete : mapDelete s.rankingHistory it.id =
            rest.map (fun it => (it.id, fnRecordOf it)) := by
          rw [hh]
          exact mapDelete_cons_of_not_mem _ hfresh
        have hins : mapDelete s.aiInsights it.id = [] := by
          rw [hi]
          rfl
        rw [ih { s with
              rankingOrder := rest.map (·.id)
              rankingHistory := mapDelete s.rankingHistory it.id
              aiInsights := mapDelete s.aiInsights it.id }
            (by simp only [List.map_cons, List.nodup_cons] at hnd; exact hnd.2)
            rfl hdelete hins]
        rw [fnKept_cons_of_lt hlt]

theorem fnKept_append_singleton (l : List FnCreateItem) (x : FnCreateItem) :
    fnKept (fnKept l ++ [x]) = fnKept (l ++ [x]) := by
  by_cases h : l.length ≤ MAX_RANKINGS_STORED
  · rw [fnKept_of_le h]
  · have hm : MAX_RANKINGS_STORED = 20 := rfl
    unfold fnKept
    rw [List.length_append, List.length_drop, List.length_append]
    simp only [List.length_cons, List.length_nil]
    have h1 : l.length - (l.length - MAX_RANKINGS_STORED) + (0 + 1) - MAX_RANKINGS_STORED = 1 := by
      omega
    have h2 : l.length + (0 + 1) - MAX_RANKINGS_STORED = l.length - MAX_RANKINGS_STORED + 1 := by
      omega
    rw [h1, h2]
    rw [List.drop_append_of_le_length (by rw [List.length_drop]; omega)]
    rw [List.drop_append_of_le_length (by omega)]
    rw [List.drop_drop]

theorem fnKept_sublist (l : List FnCreateItem) : (fnKept l).Sublist l :=
  List.drop_sublist _ _

theorem fnCreateAll_inv (items : List FnCreateItem) :
    ∀ (prev : List FnCreateItem) (s : FnStore),
      ((prev ++ items).map (·.id)).Nodup →
      FnInv prev s →
      FnInv (prev ++ items) (fnCreateAll s items) := by
  induction items with
  | nil =>
      intro prev s hnd hinv
      simpa [fnCreateAll] using hinv
  | cons it rest ih =>
      intro prev s hnd hinv
      have hnd' : ((prev ++ [it]).map (·.id)).Nodup := by
        have hsub : (prev ++ [it]).Sublist (prev ++ it :: rest) :=
          List.Sublist.append (List.Sublist.refl prev)
            (List.Sublist.cons₂ it (List.nil_sublist rest))
        exact List.Nodup.sublist (hsub.map _) hnd
      have hfreshPrev : it.id ∉ prev.map (·.id) := by
        rw [List.map_append] at hnd
        rcases List.nodup_append.mp hnd with ⟨_, _, hdisj⟩
        intro hmem
        exact hdisj hmem (by simp)
      have hfreshKept : it.id ∉ (fnKept prev).map (·.id) := by
        intro hmem
        exact hfreshPrev (((fnKept_sublist prev).map _).mem hmem)
      have hsetEq : mapSet s.rankingHistory it.id (fnRecordOf it) =
          (fnKept prev ++ [it]).map (fun j => (j.id, fnRecordOf j)) := by
        rw [hinv.historyEq, mapSet_of_not_mem _ (by
          rw [List.map_map]
          simpa using hfreshKept)]
        simp
      have horder1 : s.rankingOrder ++ [it.id] = (fnKept prev ++ [it]).map (·.id) := by
        rw [hinv.orderEq]
        simp
      have hndMid : ((fnKept prev ++ [it]).map (·.id)).Nodup := by
        have hsub2 : (fnKept prev ++ [it]).Sublist (prev ++ [it]) :=
          List.Sublist.append (fnKept_sublist prev) (List.Sublist.refl [it])
        exact List.Nodup.sublist (hsub2.map _) hnd'
      have hstep : (fnCreateRankingRecord s it).2 =
          pruneHistoryIfNeeded
            { s with
                rankingHistory := mapSet s.rankingHistory it.id (fnRecordOf it)
                rankingOrder := s.rankingOrder ++ [it.id]
                currentRankingId := some it.id } := rfl
      have hprune := prune_assoc (fnKept prev ++ [it])
        { s with
            rankingHistory := mapSet s.rankingHistory it.id (fnRecordOf it)
            rankingOrder := s.rankingOrder ++ [it.id]
            currentRankingId := some it.id }
        hndMid horder1 hsetEq hinv.insightsNil
      have hCreateCons : fnCreateAll s (it :: rest) =
          fnCreateAll ((fnCreateRankingRecord s it).2) rest := rfl
      have hinv2 : FnInv (prev ++ [it]) ((fnCreateRankingRecord s it).2) := by
        rw [hstep, hprune]
        refine ⟨?_, ?_, rfl⟩
        · rw [fnKept_append_singleton]
        · rw [fnKept_append_singleton]
      have hassoc : prev ++ it :: rest = (prev ++ [it]) ++ rest := by
        simp
      rw [hassoc]
      rw [hCreateCons]
      exact ih (prev ++ [it]) ((fnCreateRankingRecord s it).2)
        (by rw [← hassoc]; exact hnd) hinv2

theorem filterMap_mapGet_of_lookup (hist : List (Nat × FnRanking)) :
    ∀ l : List FnCreateItem,
      (∀ it ∈ l, mapGet hist it.id = some (fnRecordOf it)) →
      (l.map (·.id)).filterMap (mapGet hist) = l.map fnRecordOf := by
  intro l
  induction l with
  | nil => intro _; rfl
  | cons it rest ih =>
      intro hl
      simp only [List.map_cons, List.filterMap_cons]
      rw [hl it (List.mem_cons_self _ _)]
      rw [ih (fun j hj => hl j (List.mem_cons_of_mem _ hj))]

/-- C1 (amended) — the class-based store of part_004 keeps an unbounded
history (see the counterexample); the bounded-history property holds of the
repository's other, functional ranking store, with capacity
`MAX_RANKINGS_STORED = 20`: after any sequence of `createRankingRecord` calls
with distinct ids, `listRankings` returns exactly the retained suffix of the
creation sequence — the at most 20 most recently created snapshots — newest
first, the insertion beyond 20 having evicted the oldest by creation order. -/
theorem history_bound_functional_store (items : List FnCreateItem)
    (h : (items.map (·.id)).Nodup) :
    listRankings (fnCreateAll fnEmptyStore items) =
      ((fnKept items).map fnRecordOf).reverse ∧
    (listRankings (fnCreateAll fnEmptyStore items)).length ≤ MAX_RANKINGS_STORED := by
  have hinv : FnInv items (fnCreateAll fnEmptyStore items) := by
    have := fnCreateAll_inv items [] fnEmptyStore (by simpa using h) ⟨rfl, rfl, rfl⟩
    simpa using this
  have hkeysNodup : ((fnCreateAll fnEmptyStore items).rankingHistory.map (·.1)).Nodup := by
    rw [hinv.historyEq, List.map_map]
    have : ((fnKept items).map (·.id)).Nodup :=
      List.Nodup.sublist ((fnKept_sublist items).map _) h
    simpa using this
  have hlook : ∀ it ∈ fnKept items,
      mapGet (fnCreateAll fnEmptyStore items).rankingHistory it.id =
        some (fnRecordOf it) := by
    intro it hit
    apply mapGet_of_mem_nodup hkeysNodup
    rw [hinv.historyEq]
    exact List.mem_map.mpr ⟨it, hit, rfl⟩
  have hmain : listRankings (fnCreateAll fnEmptyStore items) =
      ((fnKept items).map fnRecordOf).reverse := by
    unfold listRankings
    rw [hinv.orderEq, ← List.map_reverse, ← List.map_reverse]
    exact filterMap_mapGet_of_lookup _ (fnKept items).reverse
      (fun it hit => hlook it (List.mem_reverse.mp hit))
  refine ⟨hmain, ?_⟩
  rw [hmain, List.length_reverse, List.length_map]
  unfold fnKept
  rw [List.length_drop]
  omega

/-- Witness for C1: twenty-one distinct creations leave exactly the newest
twenty snapshots, newest first. -/
theorem history_bound_functional_store_witness :
    (fnItems.map (·.id)).Nodup ∧
    (listRankings (fnCreateAll fnEmptyStore fnItems) =
        ((fnKept fnItems).map fnRecordOf).reverse ∧
      (listRankings (fnCreateAll fnEmptyStore fnItems)).length ≤ MAX_RANKINGS_STORED) :=
  ⟨by decide, history_bound_functional_store fnItems (by decide)⟩

theorem delIds_cons_of_lt {c : Nat} {e : Nat × Ranking} (rest : List (Nat × Ranking))
    (he : e.2.createdAt < c) : delIds c (e :: rest) = e.1 :: delIds c rest := by
  simp [delIds, he]

theorem delIds_cons_of_ge {c : Nat} {e : Nat × Ranking} (rest : List (Nat × Ranking))
    (he : ¬e.2.createdAt < c) : delIds c (e :: rest) = delIds c rest := by
  simp [delIds, he]

theorem cleanup_foldl (c : Nat) (l : List (Nat × Ranking)) :
    ∀ s : RankingStore,
      (l.foldl (cleanupStep c) s).rankings =
        s.rankings.filter (fun p => decide (p.1 ∉ delIds c l)) ∧
      (l.foldl (cleanupStep c) s).feedback =
        s.feedback.filter (fun p => decide (p.1 ∉ delIds c l)) ∧
      (l.foldl (cleanupStep c) s).currentRankingId =
        (match s.currentRankingId with
          | some k => if k ∈ delIds c l then none else some k
          | none => none) := by
  induction l with
  | nil =>
      intro s
      refine ⟨?_, ?_, ?_⟩
      · simp [delIds]
      · simp [delIds]
      · cases hcur : s.currentRankingId <;> simp [delIds, hcur]
  | cons e rest ih =>
      intro s
      rw [List.foldl_cons]
      by_cases he : e.2.createdAt < c
      · have hstep : cleanupStep c s e =
            { rankings := mapDelete s.rankings e.1
              feedback := mapDelete s.feedback e.1
              currentRankingId :=
                if s.currentRankingId = some e.1 then none else s.currentRankingId } := by
          unfold cleanupStep
          rw [if_pos he]
        rw [hstep]
        rcases ih { rankings := mapDelete s.rankings e.1
                    feedback := mapDelete s.feedback e.1
                    currentRankingId :=
                      if s.currentRankingId = some e.1 then none
                      else s.currentRankingId } with ⟨h1, h2, h3⟩
        rw [delIds_cons_of_lt rest he]
        have hptw : ∀ {α : Type} (X : List (Nat × α)),
            (mapDelete X e.1).filter (fun p => decide (p.1 ∉ delIds c rest)) =
              X.filter (fun p => decide (p.1 ∉ e.1 :: delIds c rest)) := by
          intro α X
          unfold mapDelete
          rw [List.filter_filter]
          apply List.filter_congr
          intro a _
          by_cases ha1 : a.1 = e.1 <;> by_cases ha2 : a.1 ∈ delIds c rest <;>
            simp [ha1, ha2]
        refine ⟨?_, ?_, ?_⟩
        · rw [h1]
          exact hptw s.rankings
        · rw [h2]
          exact hptw s.feedback
        · rw [h3]
          cases hcur : s.currentRankingId with
          | none => simp
          | some k =>
              by_cases hk : k = e.1
              · rw [hk]
                simp
              · have : ¬(some k = some e.1) := by simp [hk]
                rw [if_neg this]
                simp only [List.mem_cons]
                by_cases hk2 : k ∈ delIds c rest <;> simp [hk, hk2]
      · have hstep : cleanupStep c s e = s := by
          unfold cleanupStep
          rw [if_neg he]
        rw [hstep, delIds_cons_of_ge rest he]
        exact ih s

theorem nodup_keys_pair_eq {α : Type} {l : List (Nat × α)}
    (hnd : (l.map (·.1)).Nodup) {a b : Nat × α}
    (ha : a ∈ l) (hb : b ∈ l) (hk : a.1 = b.1) : a = b := by
  induction l with
  | nil => cases ha
  | cons p rest ih =>
      simp only [List.map_cons, List.nodup_cons] at hnd
      rcases List.mem_cons.mp ha with ha' | ha' <;>
        rcases List.mem_cons.mp hb with hb' | hb'
      · rw [ha', hb']
      · exfalso
        apply hnd.1
        rw [← ha', hk]
        exact List.mem_map.mpr ⟨b, hb', rfl⟩
      · exfalso
        apply hnd.1
        rw [← hb', ← hk]
        exact List.mem_map.mpr ⟨a, ha', rfl⟩
      · exact ih hnd.2 ha' hb'

theorem mem_delIds_iff {c k : Nat} {l : List (Nat × Ranking)} :
    k ∈ delIds c l ↔ ∃ p ∈ l, p.1 = k ∧ p.2.createdAt < c := by
  unfold delIds
  simp only [List.mem_map, List.mem_filter, decide_eq_true_eq]
  constructor
  · rintro ⟨p, ⟨hp, hc⟩, hk⟩
    exact ⟨p, hp, hk, hc⟩
  · rintro ⟨p, hp, hk, hc⟩
    exact ⟨p, ⟨hp, hc⟩, hk⟩

/-- Under distinct keys, `cleanupOldRankings` filters the history by age and
repoints (or keeps) the current pointer accordingly. -/
theorem cleanup_spec {s : RankingStore} (hnd : (s.rankings.map (·.1)).Nodup)
    (now maxAge : Nat) :
    (cleanupOldRankings s now maxAge).rankings =
      s.rankings.filter (fun p => decide (¬p.2.createdAt < now - maxAge)) ∧
    (cleanupOldRankings s now maxAge).currentRankingId =
      (match s.currentRankingId with
        | some k => if k ∈ delIds (now - maxAge) s.rankings then none else some k
        | none => none) := by
  rcases cleanup_foldl (now - maxAge) s.rankings s with ⟨h1, _, h3⟩
  refine ⟨?_, h3⟩
  show (s.rankings.foldl (cleanupStep (now - maxAge)) s).rankings = _
  rw [h1]
  apply List.filter_congr
  intro p hp
  by_cases hdel : p.1 ∈ delIds (now - maxAge) s.rankings
  · rcases mem_delIds_iff.mp hdel with ⟨q, hq, hqk, hqc⟩
    have : q = p := nodup_keys_pair_eq hnd hq hp hqk
    rw [this] at hqc
    simp [hdel, hqc]
  · have hnc : ¬p.2.createdAt < now - maxAge := by
      intro hc
      exact hdel (mem_delIds_iff.mpr ⟨p, hp, rfl, hc⟩)
    simp [hdel, hnc]

theorem storeInv_cleanup {s : RankingStore} {tmax : Nat} (hinv : StoreInv s tmax)
    (now maxAge : Nat) : StoreInv (cleanupOldRankings s now maxAge) tmax := by
  rcases cleanup_spec hinv.keysNodup now maxAge with ⟨h1, h3⟩
  have hsub : ((cleanupOldRankings s now maxAge).rankings).Sublist s.rankings := by
    rw [h1]
    exact List.filter_sublist _
  refine ⟨?_, ?_, ?_, ?_⟩
  · exact List.Nodup.sublist (hsub.map _) hinv.keysNodup
  · rw [List.chain'_iff_pairwise]
    exact List.Pairwise.sublist (hsub.map _) (List.chain'_iff_pairwise.mp hinv.timesMono)
  · intro p hp
    exact hinv.timesLe p (hsub.mem hp)
  · rw [h3, hinv.currentEq]
    rcases List.eq_nil_or_concat s.rankings with hnil | ⟨L, E, hconcat⟩
    · rw [hnil] at h1 ⊢
      simp only [List.filter_nil] at h1
      rw [h1]
      simp
    · rw [List.concat_eq_append] at hconcat
      rw [hconcat] at h1 ⊢
      rw [List.map_append]
      simp only [List.map_cons, List.map_nil]
      rw [List.getLast?_concat]
      by_cases hE : E.2.createdAt < now - maxAge
      · have hall : ∀ p ∈ L ++ [E], p.2.createdAt < now - maxAge := by
          intro p hp
          rcases List.mem_append.mp hp with hp' | hp'
          · have hpw := List.chain'_iff_pairwise.mp hinv.timesMono
            rw [hconcat, List.map_append] at hpw
            rcases List.pairwise_append.mp hpw with ⟨_, _, hrel⟩
            have := hrel p.2.createdAt (List.mem_map.mpr ⟨p, hp', rfl⟩)
              E.2.createdAt (by simp)
            omega
          · simp only [List.mem_singleton] at hp'
            rw [hp']
            exact hE
        have hnil' : (L ++ [E]).filter
            (fun p => decide (¬p.2.createdAt < now - maxAge)) = [] := by
          rw [List.filter_eq_nil_iff]
          intro p hp
          simp only [decide_eq_true_eq, Decidable.not_not]
          exact hall p hp
        have hEdel : E.1 ∈ delIds (now - maxAge) (L ++ [E]) :=
          mem_delIds_iff.mpr ⟨E, by simp, rfl, hE⟩
        show (if E.1 ∈ delIds (now - maxAge) (L ++ [E]) then none else some E.1) =
          ((cleanupOldRankings s now maxAge).rankings.map (fun x => x.1)).getLast?
        rw [if_pos hEdel, h1, hnil']
        rfl
      · have hkeep : (L ++ [E]).filter
            (fun p => decide (¬p.2.createdAt < now - maxAge)) =
            L.filter (fun p => decide (¬p.2.createdAt < now - maxAge)) ++ [E] := by
          rw [List.filter_append]
          congr 1
          rw [List.filter_cons]
          simp [hE]
        have hEnotdel : E.1 ∉ delIds (now - maxAge) (L ++ [E]) := by
          intro hdel
          rcases mem_delIds_iff.mp hdel with ⟨q, hq, hqk, hqc⟩
          have hq' : q = E := by
            apply nodup_keys_pair_eq _ hq (by simp) hqk
            rw [← hconcat]
            exact hinv.keysNodup
          rw [hq'] at hqc
          exact hE hqc
        show (if E.1 ∈ delIds (now - maxAge) (L ++ [E]) then none else some E.1) =
          ((cleanupOldRankings s now maxAge).rankings.map (fun x => x.1)).getLast?
        rw [if_neg hEnotdel, h1, hkeep, List.map_append]
        simp only [List.map_cons, List.map_nil]
        rw [List.getLast?_concat]

theorem storeInv_create {s : RankingStore} {tmax : Nat} (hinv : StoreInv s tmax)
    (d : RankingData) (id now : Nat)
    (hfresh : id ∉ s.rankings.map (·.1)) (hle : tmax ≤ now) :
    StoreInv ((createRankingRecord s d id now).2) now := by
  have hranks : ((createRankingRecord s d id now).2).rankings =
      s.rankings ++ [(id, (createRankingRecord s d id now).1)] := by
    show mapSet s.rankings id _ = _
    exact mapSet_of_not_mem _ hfresh
  refine ⟨?_, ?_, ?_, ?_⟩
  · rw [hranks, List.map_append]
    simp only [List.map_cons, List.map_nil]
    rw [List.nodup_append]
    refine ⟨hinv.keysNodup, List.nodup_singleton _, ?_⟩
    intro a ha hb
    simp only [List.mem_singleton] at hb
    rw [hb] at ha
    exact hfresh ha
  · rw [hranks, List.map_append]
    rw [List.chain'_iff_pairwise, List.pairwise_append]
    refine ⟨List.chain'_iff_pairwise.mp hinv.timesMono, by simp, ?_⟩
    intro x hx y hy
    simp only [List.map_cons, List.map_nil, List.mem_singleton] at hy
    rcases List.mem_map.mp hx with ⟨p, hp, hpx⟩
    rw [hy]
    have := hinv.timesLe p hp
    show x ≤ now
    omega
  · intro p hp
    rw [hranks] at hp
    rcases List.mem_append.mp hp with hp' | hp'
    · exact le_trans (hinv.timesLe p hp') hle
    · simp only [List.mem_singleton] at hp'
      rw [hp']
      show now ≤ now
      exact le_refl now
  · show some id = _
    rw [hranks, List.map_append]
    simp only [List.map_cons, List.map_nil]
    rw [List.getLast?_concat]

theorem applyOps_inv (ops : List StoreOp) :
    ∀ (s : RankingStore) (tmax : Nat),
      StoreInv s tmax →
      (∀ id ∈ opCreateIds ops, id ∉ s.rankings.map (·.1)) →
      (opCreateIds ops).Nodup →
      List.Chain' (· ≤ ·) (tmax :: ops.map opTime) →
      ∃ tmax', StoreInv (applyOps s ops) tmax' := by
  induction ops with
  | nil =>
      intro s tmax hinv _ _ _
      exact ⟨tmax, hinv⟩
  | cons op rest ih =>
      intro s tmax hinv hfresh hnd hch
      cases op with
      | create d id now =>
          have hids : opCreateIds (StoreOp.create d id now :: rest) =
              id :: opCreateIds rest := rfl
          rw [hids] at hfresh hnd
          have hfresh0 : id ∉ s.rankings.map (·.1) :=
            hfresh id (List.mem_cons_self _ _)
          have hle : tmax ≤ now := (List.chain'_cons.mp hch).1
          have hinv' := storeInv_create hinv d id now hfresh0 hle
          have hranks : ((createRankingRecord s d id now).2).rankings =
              s.rankings ++ [(id, (createRankingRecord s d id now).1)] := by
            show mapSet s.rankings id _ = _
            exact mapSet_of_not_mem _ hfresh0
          have happly : applyOps s (StoreOp.create d id now :: rest) =
              applyOps ((createRankingRecord s d id now).2) rest := rfl
          rw [happly]
          apply ih _ now hinv'
          · intro id' hid'
            rw [hranks, List.map_append]
            intro hmem
            rcases List.mem_append.mp hmem with hm | hm
            · exact hfresh id' (List.mem_cons_of_mem _ hid') hm
            · simp only [List.map_cons, List.map_nil, List.mem_singleton] at hm
              rw [List.nodup_cons] at hnd
              exact hnd.1 (hm ▸ hid')
          · exact (List.nodup_cons.mp hnd).2
          · exact (List.chain'_cons.mp hch).2
      | cleanup now maxAge =>
          have hinv' := storeInv_cleanup hinv now maxAge
          have hsub : ((cleanupOldRankings s now maxAge).rankings).Sublist s.rankings := by
            rcases cleanup_spec hinv.keysNodup now maxAge with ⟨h1, _⟩
            rw [h1]
            exact List.filter_sublist _
          have happly : applyOps s (StoreOp.cleanup now maxAge :: rest) =
              applyOps (cleanupOldRankings s now maxAge) rest := rfl
          rw [happly]
          apply ih _ tmax hinv'
          · intro id' hid' hmem
            exact hfresh id' hid' ((hsub.map _).mem hmem)
          · exact hnd
          · have hpw := List.chain'_iff_pairwise.mp hch
            have hsub2 : (tmax :: rest.map opTime).Sublist
                (tmax :: (StoreOp.cleanup now maxAge :: rest).map opTime) := by
              show (tmax :: rest.map opTime).Sublist (tmax :: now :: rest.map opTime)
              exact List.Sublist.cons₂ tmax (List.sublist_cons_self _ _)
            exact List.chain'_iff_pairwise.mpr (List.Pairwise.sublist hsub2 hpw)

theorem storeInv_current {s : RankingStore} {tmax : Nat} (hinv : StoreInv s tmax) :
    getCurrentRanking s = (mapValues s.rankings).getLast? ∧
    (getCurrentRanking s = none ↔ s.rankings = []) := by
  rcases List.eq_nil_or_concat s.rankings with hnil | ⟨L, E, hconcat⟩
  · have hcur : s.currentRankingId = none := by
      rw [hinv.currentEq, hnil]
      rfl
    unfold getCurrentRanking
    rw [hcur, hnil]
    simp [mapValues]
  · rw [List.concat_eq_append] at hconcat
    have hcur : s.currentRankingId = some E.1 := by
      rw [hinv.currentEq, hconcat, List.map_append]
      simp only [List.map_cons, List.map_nil]
      rw [List.getLast?_concat]
    have hget : getRankingById s E.1 = some E.2 := by
      apply mapGet_of_mem_nodup hinv.keysNodup
      rw [hconcat]
      have : (E.1, E.2) = E := rfl
      rw [this]
      exact List.mem_append_right _ (List.mem_singleton.mpr rfl)
    have hmain : getCurrentRanking s = some E.2 := by
      unfold getCurrentRanking
      rw [hcur]
      exact hget
    have hvals : (mapValues s.rankings).getLast? = some E.2 := by
      unfold mapValues
      rw [hconcat, List.map_append]
      simp only [List.map_cons, List.map_nil]
      rw [List.getLast?_concat]
    refine ⟨hmain.trans hvals.symm, ?_⟩
    rw [hmain, hconcat]
    simp

/-- C5 — current pointer correctness: under any well-formed sequence of
snapshot creations and cleanups (fresh ids from `generateId`, non-decreasing
`Date.now()` readings), `getCurrentRanking` returns exactly the last record of
the insertion-ordered history — the most recently created snapshot that has
not since been evicted — and returns none exactly when the history is empty. -/
theorem current_pointer_correct (ops : List StoreOp) (h : WfOps ops) :
    getCurrentRanking (applyOps emptyStore ops) =
      (mapValues (applyOps emptyStore ops).rankings).getLast? ∧
    (getCurrentRanking (applyOps emptyStore ops) = none ↔
      (applyOps emptyStore ops).rankings = []) := by
  have h0 : StoreInv emptyStore 0 := by
    refine ⟨?_, ?_, ?_, rfl⟩
    · exact List.nodup_nil
    · exact List.chain'_nil
    · intro p hp
      cases hp
  have hch : List.Chain' (· ≤ ·) (0 :: ops.map opTime) := by
    rw [List.chain'_cons']
    exact ⟨fun y _ => Nat.zero_le y, h.2⟩
  rcases applyOps_inv ops emptyStore 0 h0
      (by intro id _ hmem; cases hmem) h.1 hch with ⟨tmax', hinv⟩
  exact storeInv_current hinv

/-- Witness for C5: create snapshots 1 and 2, then clean up with a cutoff that
evicts only snapshot 1; the current pointer is the last live record. -/
theorem current_pointer_correct_witness :
    WfOps sampleOps ∧
    (getCurrentRanking (applyOps emptyStore sampleOps) =
        (mapValues (applyOps emptyStore sampleOps).rankings).getLast? ∧
      (getCurrentRanking (applyOps emptyStore sampleOps) = none ↔
        (applyOps emptyStore sampleOps).rankings = [])) :=
  ⟨by decide, current_pointer_correct sampleOps (by decide)⟩

end TaskWolf
